import Mathlib

/-!
Shallow embedding of the fontman library core
(`src/app/src/main/library.ts`, second revision of `LibraryStore`, together
with the IPC / renderer glue in `src/unnamed/part_004` and
`src/unnamed/part_005`).

Modelling decisions, recorded once here:
* SQLite tables become Lean lists of rows; `AUTOINCREMENT` ids become
  explicit `next…Id` counters carried in the store.
* `new Date().toISOString()` timestamps are modelled by a monotone `clock`
  (a `Nat`) carried in the store; each read of the wall clock returns the
  current value and bumps it, so successive reads are strictly increasing
  (ISO timestamps taken later compare larger).
* SQL `REAL` trait columns (weight/width/slant) are carried as opaque
  `Option Int` payloads: no claim under verification performs arithmetic
  on them, they are only stored and compared for equality.
* `path LIKE '<p>%'` is modelled as a string-prefix test; this is faithful
  for patterns free of the LIKE wildcards, which is the shape every caller
  in the repository uses (a directory path).
* Result-set ordering of the SQL queries (ORDER BY name / weight) is
  abstracted: lists are kept in row order, since every claim under
  verification is order-independent.
-/

namespace Fontman

/-- Status column of a `font_files` row: 'ok' | 'error' | 'missing'. -/
inductive FileStatus
  | ok
  | error
  | missing
deriving DecidableEq, Repr

/-- A row of the `sources` table. -/
structure Source where
  id : Nat
  path : String
  isEnabled : Bool
  createdAt : Nat
deriving DecidableEq, Repr

/-- A row of the `font_files` table. -/
structure FontFile where
  id : Nat
  sourceId : Nat
  path : String
  ext : String
  fileSize : Nat
  mtime : Nat
  lastSeenAt : Nat
  status : FileStatus
deriving DecidableEq, Repr

/-- A row of the `families` table (the nullable foundry / sort-name columns
are never written by the code under verification and are omitted). -/
structure Family where
  id : Nat
  familyKey : String
  familyNameDisplay : String
deriving DecidableEq, Repr

/-- A row of the `faces` table. -/
structure Face where
  id : Nat
  familyId : Nat
  fileId : Nat
  indexInCollection : Nat
  postscriptName : String
  fullName : String
  styleName : String
  weight : Option Int
  width : Option Int
  slant : Option Int
  isItalic : Bool
  isVariable : Bool
  activated : Bool
  previewSupported : Bool
  installSupported : Bool
deriving DecidableEq, Repr

/-- The `type` column of `facet_columns`: 'single' | 'multi' | 'boolean'. -/
inductive FacetColumnType
  | single
  | multi
  | boolean
deriving DecidableEq, Repr

/-- A row of the `facet_columns` table. -/
structure FacetColumnRow where
  id : Nat
  key : String
  displayName : String
  type : FacetColumnType
deriving DecidableEq, Repr

/-- A row of the `facet_values` table. -/
structure FacetValueRow where
  id : Nat
  columnId : Nat
  valueKey : String
  displayName : String
deriving DecidableEq, Repr

/-- A row of the `family_facet_values` association table. -/
structure FamilyFacetValue where
  familyId : Nat
  valueId : Nat
deriving DecidableEq, Repr

/-- One face reported by the introspection collaborator
(`ScanFileResult.faces` element). -/
structure ScanFace where
  familyName : String
  index : Nat
  postScriptName : String
  fullName : String
  styleName : String
  weight : Option Int
  width : Option Int
  slant : Option Int
  isItalic : Bool
  isVariable : Bool
deriving DecidableEq, Repr

/-- The introspection collaborator's per-file result. -/
structure ScanFileResult where
  faces : List ScanFace
deriving DecidableEq, Repr

/-- The whole SQLite database of one library root, plus the monotone clock. -/
structure Store where
  sources : List Source
  fontFiles : List FontFile
  families : List Family
  faces : List Face
  facetColumns : List FacetColumnRow
  facetValues : List FacetValueRow
  familyFacetValues : List FamilyFacetValue
  nextSourceId : Nat
  nextFileId : Nat
  nextFamilyId : Nat
  nextFaceId : Nat
  nextColumnId : Nat
  nextValueId : Nat
  clock : Nat
deriving DecidableEq, Repr

/-- Read the wall clock (`new Date().toISOString()`) and advance it. -/
def tickNow (s : Store) : Nat × Store :=
  (s.clock, { s with clock := s.clock + 1 })

/-- `SUPPORTED_EXTENSIONS` from library.ts. -/
def SUPPORTED_EXTENSIONS : List String :=
  [".otf", ".ttf", ".ttc", ".otc", ".woff", ".woff2"]

/-- `INSTALLABLE_EXTENSIONS` from library.ts. -/
def INSTALLABLE_EXTENSIONS : List String :=
  [".otf", ".ttf", ".ttc", ".otc"]

/-- `PREVIEWABLE_EXTENSIONS` from library.ts. -/
def PREVIEWABLE_EXTENSIONS : List String :=
  [".otf", ".ttf", ".ttc", ".otc", ".woff", ".woff2"]

/-!
The JS string primitives the source leans on (`startsWith`, `toLowerCase`,
`trim`, `path.extname`) are modelled by structurally-recursive functions
over the character list, covering the ASCII range the repository's paths
and names live in. -/

/-- ASCII lower-casing of one character (`String.prototype.toLowerCase`,
restricted to the ASCII range the claims exercise). -/
def charLower (c : Char) : Char :=
  if 65 ≤ c.toNat && c.toNat ≤ 90 then Char.ofNat (c.toNat + 32) else c

/-- `value.toLowerCase()`. -/
def strToLower (value : String) : String :=
  String.mk (value.data.map charLower)

/-- ASCII whitespace test used by `trim`. -/
def isSpaceChar (c : Char) : Bool :=
  decide (c = ' ') || decide (c = '\t') || decide (c = '\n') || decide (c = '\r')

/-- `value.trim()`. -/
def strTrim (value : String) : String :=
  String.mk
    (((value.data.dropWhile isSpaceChar).reverse.dropWhile isSpaceChar).reverse)

/-- `haystack.startsWith(needle)` — also the wildcard-free reading of
`LIKE 'needle%'`. -/
def strIsPrefixOf (needle haystack : String) : Bool :=
  needle.data.isPrefixOf haystack.data

/-- `normalizeFamilyKey = (value) => value.trim().toLowerCase()`. -/
def normalizeFamilyKey (value : String) : String :=
  strToLower (strTrim value)

/-- Node's `path.extname`: extension (with dot) after the last dot of the
last path component; empty for extension-less names and leading-dot
files. -/
def extname (p : String) : String :=
  let b := (p.data.reverse.takeWhile (fun c => !(decide (c = '/')))).reverse
  let tail := b.reverse.takeWhile (fun c => !(decide (c = '.')))
  if tail.length = b.length then ""
  else if b.length = tail.length + 1 then ""
  else String.mk ('.' :: tail.reverse)

/-- `SELECT id FROM font_files WHERE path = ?` (first row). -/
def findFileByPath (s : Store) (p : String) : Option FontFile :=
  s.fontFiles.find? (fun f => decide (f.path = p))

/-- `SELECT … FROM font_files WHERE id = ?` (first row). -/
def findFileById (s : Store) (i : Nat) : Option FontFile :=
  s.fontFiles.find? (fun f => decide (f.id = i))

/-- `SELECT id FROM families WHERE family_key = ?` (first row). -/
def findFamilyByKey (s : Store) (k : String) : Option Family :=
  s.families.find? (fun f => decide (f.familyKey = k))

/-- `SELECT … FROM faces WHERE faces.id = ?` (first row). -/
def findFaceById (s : Store) (i : Nat) : Option Face :=
  s.faces.find? (fun f => decide (f.id = i))

/-- `LibraryStore.findSourceForPath`: longest enabled source whose path is a
prefix of the file path; the first such source wins ties. -/
def findSourceForPath (s : Store) (filePath : String) : Option Source :=
  (s.sources.filter
      (fun src => src.isEnabled && strIsPrefixOf src.path filePath)).foldl
    (fun best src =>
      match best with
      | none => some src
      | some b => if src.path.length > b.path.length then some src else some b)
    none

/-- The `INSERT INTO font_files … ON CONFLICT(path) DO UPDATE` statement,
parameterised by the status literal ('ok' in `upsertScanResult`, 'error' in
the `scanSource` catch branch). -/
def upsertFontFileRow (s : Store) (filePath : String) (sourceId : Nat)
    (ext : String) (size mtime now : Nat) (status : FileStatus) : Store :=
  if s.fontFiles.any (fun f => decide (f.path = filePath)) then
    { s with fontFiles := s.fontFiles.map (fun f =>
        if decide (f.path = filePath) then
          { f with sourceId := sourceId, ext := ext, fileSize := size,
                   mtime := mtime, lastSeenAt := now, status := status }
        else f) }
  else
    { s with
      fontFiles := s.fontFiles ++
        [{ id := s.nextFileId, sourceId := sourceId, path := filePath,
           ext := ext, fileSize := size, mtime := mtime, lastSeenAt := now,
           status := status }],
      nextFileId := s.nextFileId + 1 }

/-- The `INSERT INTO families … ON CONFLICT(family_key) DO UPDATE` statement. -/
def upsertFamilyRow (s : Store) (familyKey familyName : String) : Store :=
  if s.families.any (fun f => decide (f.familyKey = familyKey)) then
    { s with families := s.families.map (fun f =>
        if decide (f.familyKey = familyKey) then
          { f with familyNameDisplay := familyName }
        else f) }
  else
    { s with
      families := s.families ++
        [{ id := s.nextFamilyId, familyKey := familyKey,
           familyNameDisplay := familyName }],
      nextFamilyId := s.nextFamilyId + 1 }

/-- Body of the per-face loop of `upsertScanResult`: upsert the family, look
its id up again, and insert the face row (`activated_bool` takes its schema
default 0, i.e. `false`). -/
def insertScanFace (ext : String) (fileId : Nat) (s : Store)
    (face : ScanFace) : Store :=
  let key := normalizeFamilyKey face.familyName
  let s1 := upsertFamilyRow s key face.familyName
  match findFamilyByKey s1 key with
  | none => s1
  | some fam =>
    { s1 with
      faces := s1.faces ++
        [{ id := s1.nextFaceId, familyId := fam.id, fileId := fileId,
           indexInCollection := face.index,
           postscriptName := face.postScriptName,
           fullName := face.fullName, styleName := face.styleName,
           weight := face.weight, width := face.width, slant := face.slant,
           isItalic := face.isItalic, isVariable := face.isVariable,
           activated := false,
           previewSupported := PREVIEWABLE_EXTENSIONS.contains ext,
           installSupported := INSTALLABLE_EXTENSIONS.contains ext }],
      nextFaceId := s1.nextFaceId + 1 }

/-- `LibraryStore.upsertScanResult`: upsert the file row with status 'ok',
delete every face of the file, then re-insert the scanned faces. -/
def upsertScanResult (s : Store) (filePath : String) (sourceId : Nat)
    (ext : String) (size mtime : Nat) (scanResult : ScanFileResult) : Store :=
  let (now, s0) := tickNow s
  let s1 := upsertFontFileRow s0 filePath sourceId ext size mtime now .ok
  match findFileByPath s1 filePath with
  | none => s1
  | some fileRow =>
    let s2 := { s1 with
      faces := s1.faces.filter (fun fc => !(decide (fc.fileId = fileRow.id))) }
    scanResult.faces.foldl (insertScanFace ext fileRow.id) s2

/-- `UPDATE font_files SET status='missing', last_seen_at=? WHERE id IN (…)`
together with `UPDATE faces SET activated_bool=0 WHERE file_id IN (…)`. -/
def markFilesMissingByIds (s : Store) (ids : List Nat) (now : Nat) : Store :=
  { s with
    fontFiles := s.fontFiles.map (fun f =>
      if ids.contains f.id then
        { f with status := .missing, lastSeenAt := now }
      else f),
    faces := s.faces.map (fun fc =>
      if ids.contains fc.fileId then { fc with activated := false } else fc) }

/-- `LibraryStore.markFileMissing`. -/
def markFileMissing (s : Store) (filePath : String) : Store × Bool :=
  match findFileByPath s filePath with
  | none => (s, false)
  | some fileRow =>
    let (now, s0) := tickNow s
    (markFilesMissingByIds s0 [fileRow.id] now, true)

/-- `LibraryStore.markMissingUnderPath`. -/
def markMissingUnderPath (s : Store) (pathPref : String) :
    Store × List String :=
  let rows := s.fontFiles.filter (fun f =>
    strIsPrefixOf pathPref f.path && !(decide (f.status = FileStatus.missing)))
  if rows.isEmpty then (s, [])
  else
    let (now, s0) := tickNow s
    (markFilesMissingByIds s0 (rows.map (fun r => r.id)) now,
     rows.map (fun r => r.path))

/-- Outcome of one `fs.stat` call: `none` when stat throws. -/
structure StatResult where
  size : Nat
  mtimeMs : Nat
  isFile : Bool
deriving DecidableEq, Repr

/-- `LibraryStore.scanFilePath`.  The filesystem and the introspection
collaborator are inputs: `fsStat` is the result of `fs.stat(filePath)`
(`none` = stat throws) and `scanOutcome` the result of `scanFile(filePath)`
(`none` = introspection throws).  The single try/catch of the source wraps
both calls, so either failure falls through to `markFileMissing`. -/
def scanFilePath (s : Store) (filePath : String) (fsStat : Option StatResult)
    (scanOutcome : Option ScanFileResult) : Store × Nat × List String :=
  let ext := strToLower (extname filePath)
  if !(SUPPORTED_EXTENSIONS.contains ext) then (s, 0, [])
  else
    match findSourceForPath s filePath with
    | none => (s, 0, [])
    | some source =>
      match fsStat with
      | none =>
        let (s1, missing) := markFileMissing s filePath
        (s1, 0, if missing then [filePath] else [])
      | some stats =>
        if !stats.isFile then (s, 0, [])
        else
          match scanOutcome with
          | none =>
            let (s1, missing) := markFileMissing s filePath
            (s1, 0, if missing then [filePath] else [])
          | some scanResult =>
            (upsertScanResult s filePath source.id ext stats.size
               stats.mtimeMs scanResult, 1, [])

/-- One file produced by `walkDirectory` during `scanSource`, with the
results its `fs.stat` and `scanFile` calls would yield (`scanOutcome = none`
= introspection throws; the source stats walked files without a try/catch,
so their stats are taken as given). -/
structure WalkEntry where
  path : String
  size : Nat
  mtimeMs : Nat
  scanOutcome : Option ScanFileResult
deriving DecidableEq, Repr

/-- Per-file body of the `scanSource` loop: skip unsupported extensions,
record introspection failures with status 'error', otherwise upsert the
scan result; the `scanned` counter increments in both handled branches. -/
def scanSourceStep (sourceId : Nat) (acc : Store × Nat) (e : WalkEntry) :
    Store × Nat :=
  let ext := strToLower (extname e.path)
  if !(SUPPORTED_EXTENSIONS.contains ext) then acc
  else
    match e.scanOutcome with
    | none =>
      let (now, s0) := tickNow acc.1
      (upsertFontFileRow s0 e.path sourceId ext e.size e.mtimeMs now .error,
       acc.2 + 1)
    | some scanResult =>
      (upsertScanResult acc.1 e.path sourceId ext e.size e.mtimeMs scanResult,
       acc.2 + 1)

/-- `LibraryStore.scanSource`: walk (given as `files`), scan each candidate,
then mark every file of the source not seen since the scan started (and not
already missing) as missing. -/
def scanSource (s : Store) (sourceId : Nat) (files : List WalkEntry) :
    Store × Nat × List String :=
  match s.sources.find? (fun src => decide (src.id = sourceId)) with
  | none => (s, 0, [])
  | some source =>
    let (scanStartedAt, s0) := tickNow s
    let (s1, scanned) := files.foldl (scanSourceStep source.id) (s0, 0)
    let missingRows := s1.fontFiles.filter (fun f =>
      decide (f.sourceId = source.id) && decide (f.lastSeenAt < scanStartedAt)
        && !(decide (f.status = FileStatus.missing)))
    if missingRows.isEmpty then (s1, scanned, [])
    else
      let (now, s2) := tickNow s1
      (markFilesMissingByIds s2 (missingRows.map (fun r => r.id)) now,
       scanned, missingRows.map (fun r => r.path))

/-- `SELECT COUNT(*) FROM faces WHERE file_id = ? AND activated_bool = 1`. -/
def activeFaceCount (s : Store) (fileId : Nat) : Nat :=
  (s.faces.filter (fun fc => decide (fc.fileId = fileId) && fc.activated)).length

/-- The record returned by `LibraryStore.setFaceActivated` when the face
exists. -/
structure ActivationUpdate where
  filePath : String
  installSupported : Bool
  shouldRegister : Bool
  shouldUnregister : Bool
  activated : Bool
deriving DecidableEq, Repr

/-- `LibraryStore.setFaceActivated`.  The SQL join yields no row (null
result) when either the face or its file row is absent. -/
def setFaceActivated (s : Store) (faceId : Nat) (activated : Bool) :
    Store × Option ActivationUpdate :=
  match findFaceById s faceId with
  | none => (s, none)
  | some face =>
    match findFileById s face.fileId with
    | none => (s, none)
    | some file =>
      if !face.installSupported || !(decide (file.status = FileStatus.ok)) then
        ({ s with faces := s.faces.map (fun fc =>
             if decide (fc.id = faceId) then { fc with activated := false }
             else fc) },
         some { filePath := file.path,
                installSupported := face.installSupported,
                shouldRegister := false, shouldUnregister := false,
                activated := false })
      else
        let s1 := { s with faces := s.faces.map (fun fc =>
          if decide (fc.id = faceId) then { fc with activated := activated }
          else fc) }
        let count := activeFaceCount s1 face.fileId
        (s1,
         some { filePath := file.path, installSupported := true,
                shouldRegister := activated && decide (count = 1),
                shouldUnregister := !activated && decide (count = 0),
                activated := activated })

/-- OS font-registration commands issued by an IPC handler, in order. -/
structure OsCommands where
  registers : List String
  unregisters : List String
deriving DecidableEq, Repr

/-- The `ipcMain.handle('faces:setActivated', …)` handler of
`src/unnamed/part_004`: run the store transition, then issue a register /
unregister command exactly when the update asks for one (failures of the
helper calls are swallowed and do not affect the reply). -/
def ipcSetFaceActivated (s : Store) (faceId : Nat) (activated : Bool) :
    Store × Bool × OsCommands :=
  match setFaceActivated s faceId activated with
  | (s1, none) => (s1, false, { registers := [], unregisters := [] })
  | (s1, some update) =>
    if !update.installSupported then
      (s1, false, { registers := [], unregisters := [] })
    else
      (s1, update.activated,
       { registers := if update.shouldRegister then [update.filePath] else [],
         unregisters :=
           if update.shouldUnregister then [update.filePath] else [] })

/-- The `handleMissingPath` routine of `src/unnamed/part_004`: mark the
exact file missing; if no row existed, treat the path as a removed
directory; either way issue a best-effort unregister for every path
reported missing. -/
def handleMissingPath (s : Store) (path : String) : Store × OsCommands :=
  let (s1, missing) := markFileMissing s path
  if !missing then
    let (s2, removed) := markMissingUnderPath s1 path
    (s2, { registers := [], unregisters := removed })
  else
    (s1, { registers := [], unregisters := [path] })

/-- One column of the declarative facet schema file (`FacetSchemaColumn`);
an absent `values` field is identical to `[]` downstream (`values ?? []`). -/
structure FacetSchemaColumn where
  key : String
  displayName : String
  type : FacetColumnType
  values : List (String × String)
deriving DecidableEq, Repr

/-- The facet schema file: a list of columns. -/
structure FacetSchemaFile where
  columns : List FacetSchemaColumn
deriving DecidableEq, Repr

/-- `DELETE FROM facet_values WHERE id IN (…)`, with the
`family_facet_values` rows referencing those values removed by the
`ON DELETE CASCADE` foreign key. -/
def deleteFacetValuesByIds (s : Store) (ids : List Nat) : Store :=
  { s with
    facetValues := s.facetValues.filter (fun v => !(ids.contains v.id)),
    familyFacetValues :=
      s.familyFacetValues.filter (fun a => !(ids.contains a.valueId)) }

/-- `DELETE FROM facet_columns WHERE key IN (…)`: cascades to the columns'
values and from there to the family associations. -/
def deleteFacetColumnsByKeys (s : Store) (keys : List String) : Store :=
  let colIds := (s.facetColumns.filter
      (fun c => keys.contains c.key)).map (fun c => c.id)
  let valIds := (s.facetValues.filter
      (fun v => colIds.contains v.columnId)).map (fun v => v.id)
  let s1 := deleteFacetValuesByIds s valIds
  { s1 with
    facetColumns := s1.facetColumns.filter (fun c => !(keys.contains c.key)) }

/-- `INSERT INTO facet_columns … ON CONFLICT(key) DO UPDATE`. -/
def upsertFacetColumn (s : Store) (col : FacetSchemaColumn) : Store :=
  if s.facetColumns.any (fun c => decide (c.key = col.key)) then
    { s with facetColumns := s.facetColumns.map (fun c =>
        if decide (c.key = col.key) then
          { c with displayName := col.displayName, type := col.type }
        else c) }
  else
    { s with
      facetColumns := s.facetColumns ++
        [{ id := s.nextColumnId, key := col.key,
           displayName := col.displayName, type := col.type }],
      nextColumnId := s.nextColumnId + 1 }

/-- The `normalizedValues` expression of `syncFacetSchema`: a boolean column
with no listed values receives the single synthetic value keyed 'true'. -/
def normalizedValues (col : FacetSchemaColumn) : List (String × String) :=
  if decide (col.type = FacetColumnType.boolean) && col.values.isEmpty then
    [("true", col.displayName)]
  else col.values

/-- `INSERT INTO facet_values … ON CONFLICT(column_id, value_key) DO UPDATE`. -/
def upsertFacetValue (s : Store) (columnId : Nat) (v : String × String) :
    Store :=
  if s.facetValues.any
      (fun w => decide (w.columnId = columnId) && decide (w.valueKey = v.1)) then
    { s with facetValues := s.facetValues.map (fun w =>
        if decide (w.columnId = columnId) && decide (w.valueKey = v.1) then
          { w with displayName := v.2 }
        else w) }
  else
    { s with
      facetValues := s.facetValues ++
        [{ id := s.nextValueId, columnId := columnId, valueKey := v.1,
           displayName := v.2 }],
      nextValueId := s.nextValueId + 1 }

/-- Per-column body of the `syncFacetSchema` loop. -/
def syncFacetColumn (s : Store) (col : FacetSchemaColumn) : Store :=
  let s1 := upsertFacetColumn s col
  match s1.facetColumns.find? (fun c => decide (c.key = col.key)) with
  | none => s1
  | some row =>
    let nv := normalizedValues col
    let keep := nv.map (fun v => v.1)
    let toDelete := (s1.facetValues.filter (fun w =>
        decide (w.columnId = row.id) && !(keep.contains w.valueKey))).map
      (fun w => w.id)
    let s2 := deleteFacetValuesByIds s1 toDelete
    nv.foldl (fun st v => upsertFacetValue st row.id v) s2

/-- `LibraryStore.syncFacetSchema`. -/
def syncFacetSchema (s : Store) (schema : FacetSchemaFile) : Store :=
  let keys := schema.columns.map (fun c => c.key)
  let deleteKeys := ((s.facetColumns.filter
      (fun c => !(keys.contains c.key))).map (fun c => c.key))
  let s1 := deleteFacetColumnsByKeys s deleteKeys
  schema.columns.foldl syncFacetColumn s1

/-- `Array.from(new Set(valueIds))`: deduplicate keeping first occurrences. -/
def dedupKeepFirst (l : List Nat) : List Nat :=
  l.foldl (fun acc x => if acc.contains x then acc else acc ++ [x]) []

/-- `LibraryStore.setFamilyFacetValues`: replace the family's association
rows with the deduplicated requested value ids. -/
def setFamilyFacetValues (s : Store) (familyId : Nat) (valueIds : List Nat) :
    Store :=
  let s1 := { s with familyFacetValues :=
    s.familyFacetValues.filter (fun a => !(decide (a.familyId = familyId))) }
  (dedupKeepFirst valueIds).foldl
    (fun st vid =>
      { st with familyFacetValues :=
          st.familyFacetValues ++ [{ familyId := familyId, valueId := vid }] })
    s1

/-- The renderer's `handleToggleFamilyFacetValue` for non-multi (single /
boolean radio) columns in `src/unnamed/part_005`: strip every value of the
column from the family's current ids, then add the chosen value unless it
was already present. -/
def toggleSingleNext (current : List Nat) (columnValueIds : List Nat)
    (valueId : Nat) : List Nat :=
  let next := current.filter (fun i => !(columnValueIds.contains i))
  if current.contains valueId then next else next ++ [valueId]

/-- One entry of the `listFamilies` projection. -/
structure FamilyListing where
  id : Nat
  familyName : String
  faces : List Face
  facetValueIds : List Nat
deriving DecidableEq, Repr

/-- `LibraryStore.listFamilies`: every family row, with the faces joined to
an existing file row grouped under their family, and the family's facet
value ids (result ordering abstracted, see the header). -/
def listFamilies (s : Store) : List FamilyListing :=
  s.families.map (fun fam =>
    { id := fam.id, familyName := fam.familyNameDisplay,
      faces := s.faces.filter (fun fc =>
        decide (fc.familyId = fam.id) &&
          s.fontFiles.any (fun f => decide (f.id = fc.fileId))),
      facetValueIds := (s.familyFacetValues.filter
          (fun a => decide (a.familyId = fam.id))).map (fun a => a.valueId) })

/-- `LibraryStore.addSource`: `INSERT … ON CONFLICT(path) DO UPDATE SET
is_enabled = 1`. -/
def addSource (s : Store) (path : String) : Store :=
  let (now, s0) := tickNow s
  if s0.sources.any (fun src => decide (src.path = path)) then
    { s0 with sources := s0.sources.map (fun src =>
        if decide (src.path = path) then { src with isEnabled := true }
        else src) }
  else
    { s0 with
      sources := s0.sources ++
        [{ id := s0.nextSourceId, path := path, isEnabled := true,
           createdAt := now }],
      nextSourceId := s0.nextSourceId + 1 }

/-- `LibraryStore.removeSource`: `DELETE FROM sources WHERE id = ?`. -/
def removeSource (s : Store) (id : Nat) : Store :=
  { s with sources := s.sources.filter (fun src => !(decide (src.id = id))) }

/-! ## Well-formedness invariants

These are the row invariants SQLite enforces through its UNIQUE /
AUTOINCREMENT / FOREIGN KEY declarations; theorems about states reachable
through the store take them as hypotheses. -/

/-- UNIQUE(id), UNIQUE(path) and AUTOINCREMENT freshness of `font_files`. -/
def filesWf (s : Store) : Prop :=
  (s.fontFiles.map (fun f => f.id)).Nodup ∧
  (s.fontFiles.map (fun f => f.path)).Nodup ∧
  ∀ f ∈ s.fontFiles, f.id < s.nextFileId

/-- UNIQUE(id), UNIQUE(family_key) and AUTOINCREMENT freshness of
`families`. -/
def familiesWf (s : Store) : Prop :=
  (s.families.map (fun f => f.id)).Nodup ∧
  (s.families.map (fun f => f.familyKey)).Nodup ∧
  ∀ f ∈ s.families, f.id < s.nextFamilyId

/-- UNIQUE(id) and AUTOINCREMENT freshness of `faces`. -/
def facesWf (s : Store) : Prop :=
  (s.faces.map (fun fc => fc.id)).Nodup ∧
  ∀ fc ∈ s.faces, fc.id < s.nextFaceId

/-- Uniqueness, freshness and the `ON DELETE CASCADE` foreign-key
integrity of the facet tables. -/
def facetWf (s : Store) : Prop :=
  (s.facetColumns.map (fun c => c.id)).Nodup ∧
  (s.facetColumns.map (fun c => c.key)).Nodup ∧
  (∀ c ∈ s.facetColumns, c.id < s.nextColumnId) ∧
  (s.facetValues.map (fun v => v.id)).Nodup ∧
  (s.facetValues.map (fun v => (v.columnId, v.valueKey))).Nodup ∧
  (∀ v ∈ s.facetValues, v.id < s.nextValueId) ∧
  (∀ v ∈ s.facetValues, ∃ c ∈ s.facetColumns, v.columnId = c.id) ∧
  (∀ a ∈ s.familyFacetValues, ∃ v ∈ s.facetValues, a.valueId = v.id)

/-! ## Generic list helpers -/

theorem list_map_id_of_mem {α : Type} {l : List α} {f : α → α}
    (h : ∀ a ∈ l, f a = a) : l.map f = l := by
  induction l with
  | nil => rfl
  | cons a t ih =>
    simp only [List.map_cons, h a (by simp),
      ih (fun b hb => h b (by simp [hb]))]

theorem two_mem_le_length {α : Type} [DecidableEq α] {l : List α} {a b : α}
    (ha : a ∈ l) (hb : b ∈ l) (hne : a ≠ b) : 2 ≤ l.length := by
  have h1 : b ∈ l.erase a := (List.mem_erase_of_ne hne.symm).mpr hb
  have h2 : (l.erase a).length = l.length - 1 := List.length_erase_of_mem ha
  have h3 : 0 < (l.erase a).length := List.length_pos.mpr (List.ne_nil_of_mem h1)
  have h4 : 0 < l.length := List.length_pos.mpr (List.ne_nil_of_mem ha)
  omega

theorem nodup_all_eq_length_le_one {α : Type} {l : List α} {a : α}
    (hnd : l.Nodup) (h : ∀ x ∈ l, x = a) : l.length ≤ 1 := by
  match l, hnd with
  | [], _ => simp
  | [_], _ => simp
  | x :: y :: t, hnd =>
    exfalso
    have hx : x = a := h x (by simp)
    have hy : y = a := h y (by simp)
    have : x ≠ y := by
      intro hxy
      exact (List.nodup_cons.mp hnd).1 (hxy ▸ List.mem_cons_self y t)
    exact this (hx.trans hy.symm)

/-! ## Concrete stores used by counterexamples and witnesses -/

/-- A store with no rows at all. -/
def emptyStore : Store :=
  { sources := [], fontFiles := [], families := [], faces := [],
    facetColumns := [], facetValues := [], familyFacetValues := [],
    nextSourceId := 1, nextFileId := 1, nextFamilyId := 1, nextFaceId := 1,
    nextColumnId := 1, nextValueId := 1, clock := 0 }

/-- One enabled source `/s/`, one ok `.ttf` file `/s/A.ttf`, one family and
one installable, inactive face. -/
def baseStore : Store :=
  { sources := [{ id := 1, path := "/s/", isEnabled := true, createdAt := 0 }],
    fontFiles := [{ id := 1, sourceId := 1, path := "/s/A.ttf",
                    ext := ".ttf", fileSize := 10, mtime := 5,
                    lastSeenAt := 1, status := .ok }],
    families := [{ id := 1, familyKey := "alpha",
                   familyNameDisplay := "Alpha" }],
    faces := [{ id := 1, familyId := 1, fileId := 1, indexInCollection := 0,
                postscriptName := "Alpha-Reg", fullName := "Alpha Regular",
                styleName := "Regular", weight := some 400, width := none,
                slant := none, isItalic := false, isVariable := false,
                activated := false, previewSupported := true,
                installSupported := true }],
    facetColumns := [], facetValues := [], familyFacetValues := [],
    nextSourceId := 2, nextFileId := 2, nextFamilyId := 2, nextFaceId := 2,
    nextColumnId := 1, nextValueId := 1, clock := 2 }

/-- `baseStore` after activating its sole face. -/
def activatedStore : Store := (setFaceActivated baseStore 1 true).1

/-- The introspection result matching `baseStore`'s face of `/s/A.ttf`. -/
def alphaScan : ScanFileResult :=
  { faces := [{ familyName := "Alpha", index := 0,
                postScriptName := "Alpha-Reg", fullName := "Alpha Regular",
                styleName := "Regular", weight := some 400, width := none,
                slant := none, isItalic := false, isVariable := false }] }

/-- `baseStore` with the file's status set to 'error' instead of 'ok'. -/
def errorStore : Store :=
  { baseStore with
    fontFiles := [{ id := 1, sourceId := 1, path := "/s/A.ttf",
                    ext := ".ttf", fileSize := 10, mtime := 5,
                    lastSeenAt := 1, status := .error }] }

/-- An introspection result with no faces (a valid but empty container). -/
def emptyScan : ScanFileResult := { faces := [] }

/-- The walk of `/s/` used by the C5 evaluation: `A.ttf` fails
introspection while `B.otf` parses fine. -/
def c5Walk : List WalkEntry :=
  [{ path := "/s/A.ttf", size := 10, mtimeMs := 5, scanOutcome := none },
   { path := "/s/B.otf", size := 3, mtimeMs := 6,
     scanOutcome := some emptyScan }]

/-- A store with one single-select facet column ('cls', id 1) holding the
two values ids 1 and 2, plus `baseStore`'s family. -/
def singleColStore : Store :=
  { baseStore with
    facetColumns := [{ id := 1, key := "cls", displayName := "Class",
                       type := .single }],
    facetValues := [{ id := 1, columnId := 1, valueKey := "serif",
                      displayName := "Serif" },
                    { id := 2, columnId := 1, valueKey := "sans",
                      displayName := "Sans" }],
    nextColumnId := 2, nextValueId := 3 }

/-- A schema whose single boolean column lists two values. -/
def boolValuedSchema : FacetSchemaFile :=
  { columns := [{ key := "fav", displayName := "Fav", type := .boolean,
                  values := [("x", "X"), ("y", "Y")] }] }

/-- A two-column schema: a boolean column with no listed values and a
single-select column with two values. -/
def c6Schema : FacetSchemaFile :=
  { columns := [{ key := "fav", displayName := "Fav", type := .boolean,
                  values := [] },
                { key := "cls", displayName := "Class", type := .single,
                  values := [("serif", "Serif"), ("slab", "Slab")] }] }

/-- A schema holding just a boolean column with no listed values. -/
def c8Schema : FacetSchemaFile :=
  { columns := [{ key := "fav", displayName := "Fav", type := .boolean,
                  values := [] }] }

/-! ## Claim C2 -/

/-- Claim C2: `markFileMissing p` returns true iff a `font_files` row with
path `p` existed before the call; when it returns true the file's status is
'missing' and every face of that file has its activation flag cleared; when
it returns false the store is unchanged. -/
theorem markFileMissing_spec (s : Store) (p : String) (hwf : filesWf s) :
    ((markFileMissing s p).2 = true ↔ ∃ f ∈ s.fontFiles, f.path = p) ∧
    ((markFileMissing s p).2 = true →
       (∀ f ∈ (markFileMissing s p).1.fontFiles, f.path = p →
          f.status = FileStatus.missing) ∧
       (∀ f ∈ (markFileMissing s p).1.fontFiles, f.path = p →
          ∀ fc ∈ (markFileMissing s p).1.faces, fc.fileId = f.id →
            fc.activated = false)) ∧
    ((markFileMissing s p).2 = false → (markFileMissing s p).1 = s) := by
  obtain ⟨hids, hpaths, hbound⟩ := hwf
  cases h : findFileByPath s p with
  | none =>
    have hno : ∀ f ∈ s.fontFiles, f.path ≠ p := by
      intro f hf
      have := List.find?_eq_none.mp h f hf
      simpa using this
    refine ⟨?_, ?_, ?_⟩
    · simp only [markFileMissing, h]
      constructor
      · intro hfalse
        exact absurd hfalse (by simp)
      · rintro ⟨f, hf, hfp⟩
        exact absurd hfp (hno f hf)
    · intro htrue
      simp only [markFileMissing, h] at htrue
      exact absurd htrue (by simp)
    · intro _
      simp only [markFileMissing, h]
  | some fr =>
    have hfr_mem : fr ∈ s.fontFiles := List.mem_of_find?_eq_some h
    have hfr_p : fr.path = p := by
      have := List.find?_some h
      simpa using this
    have h2 : (markFileMissing s p).2 = true := by
      simp [markFileMissing, h]
    refine ⟨?_, ?_, ?_⟩
    · exact ⟨fun _ => ⟨fr, hfr_mem, hfr_p⟩, fun _ => h2⟩
    · intro _
      constructor
      · intro f hf hfp
        simp only [markFileMissing, h, markFilesMissingByIds, tickNow] at hf
        obtain ⟨g, hg, hgf⟩ := List.mem_map.mp hf
        by_cases hc : g.id = fr.id
        · simp [hc] at hgf
          rw [← hgf]
        · simp [hc] at hgf
          subst hgf
          have : g.path = fr.path := by rw [hfp, hfr_p]
          exact absurd (List.inj_on_of_nodup_map hpaths hg hfr_mem this)
            (fun he => hc (by rw [he]))
      · intro f hf hfp fc hfc hfcid
        have hfid : f.id = fr.id := by
          simp only [markFileMissing, h, markFilesMissingByIds, tickNow] at hf
          obtain ⟨g, hg, hgf⟩ := List.mem_map.mp hf
          by_cases hc : g.id = fr.id
          · simp [hc] at hgf
            rw [← hgf]
          · simp [hc] at hgf
            subst hgf
            have : g.path = fr.path := by rw [hfp, hfr_p]
            exact absurd (List.inj_on_of_nodup_map hpaths hg hfr_mem this)
              (fun he => hc (by rw [he]))
        simp only [markFileMissing, h, markFilesMissingByIds, tickNow] at hfc
        obtain ⟨g, hg, hgf⟩ := List.mem_map.mp hfc
        by_cases hc : g.fileId = fr.id
        · simp [hc] at hgf
          rw [← hgf]
        · simp [hc] at hgf
          subst hgf
          exact absurd (hfcid.trans hfid) hc
    · intro hfalse
      simp only [markFileMissing, h] at hfalse
      exact absurd hfalse (by simp)

/-- Claim C2 witness: the theorem applied to `baseStore` and its file. -/
theorem markFileMissing_spec_witness :
    ((markFileMissing baseStore "/s/A.ttf").2 = true ↔
      ∃ f ∈ baseStore.fontFiles, f.path = "/s/A.ttf") ∧
    ((markFileMissing baseStore "/s/A.ttf").2 = true →
       (∀ f ∈ (markFileMissing baseStore "/s/A.ttf").1.fontFiles,
          f.path = "/s/A.ttf" → f.status = FileStatus.missing) ∧
       (∀ f ∈ (markFileMissing baseStore "/s/A.ttf").1.fontFiles,
          f.path = "/s/A.ttf" →
          ∀ fc ∈ (markFileMissing baseStore "/s/A.ttf").1.faces,
            fc.fileId = f.id → fc.activated = false)) ∧
    ((markFileMissing baseStore "/s/A.ttf").2 = false →
       (markFileMissing baseStore "/s/A.ttf").1 = baseStore) :=
  markFileMissing_spec baseStore "/s/A.ttf" (by unfold filesWf; decide)

/-! ## Claim C9 -/

/-- Claim C9: when no face row carries the requested id,
`setFaceActivated` returns null and leaves the store unchanged, and the
`faces:setActivated` IPC handler replies `activated = false` without
issuing any OS register or unregister command. -/
theorem setFaceActivated_unknown_face (s : Store) (faceId : Nat) (b : Bool)
    (h : ∀ fc ∈ s.faces, fc.id ≠ faceId) :
    setFaceActivated s faceId b = (s, none) ∧
    ipcSetFaceActivated s faceId b =
      (s, false, { registers := [], unregisters := [] }) := by
  have hf : findFaceById s faceId = none := by
    apply List.find?_eq_none.mpr
    intro fc hm
    simp [h fc hm]
  constructor
  · simp [setFaceActivated, hf]
  · simp [ipcSetFaceActivated, setFaceActivated, hf]

/-- Claim C9 witness: face id 99 exists nowhere in `baseStore`. -/
theorem setFaceActivated_unknown_face_witness :
    setFaceActivated baseStore 99 true = (baseStore, none) ∧
    ipcSetFaceActivated baseStore 99 true =
      (baseStore, false, { registers := [], unregisters := [] }) :=
  setFaceActivated_unknown_face baseStore 99 true (by decide)

/-! ## Claim C1 (counterexample part) -/

/-- Claim C1 counterexample: in `activatedStore` the sole face of file 1 is
already active (count 1); re-activating it leaves the count at 1 — no 0→1
transition happens — yet the call still reports `shouldRegister = true`,
contradicting "never requested by a call after which the count stays > 0"
and "re-activating the sole already-active face yields no register
request". -/
theorem setFaceActivated_redundant_register :
    activeFaceCount activatedStore 1 = 1 ∧
    (setFaceActivated activatedStore 1 true).2.map
      (fun u => u.shouldRegister) = some true ∧
    activeFaceCount (setFaceActivated activatedStore 1 true).1 1 = 1 := by
  decide

/-! ## Claim C3 (counterexample part) -/

/-- Claim C3 counterexample: the sole face of `/s/A.ttf` is activated;
rescanning the file with the identical extension, size, mtime and face list
resets the activation flag to false, so the activation flag is not
preserved by an identical rescan. -/
theorem rescan_resets_activation :
    (∃ fc ∈ activatedStore.faces, fc.fileId = 1 ∧ fc.activated = true) ∧
    (∀ fc ∈ (upsertScanResult activatedStore "/s/A.ttf" 1 ".ttf" 10 5
        alphaScan).faces, fc.fileId = 1 → fc.activated = false) ∧
    ((upsertScanResult activatedStore "/s/A.ttf" 1 ".ttf" 10 5
        alphaScan).faces.map (fun fc => fc.fileId)) = [1] := by
  decide

/-! ## Claim C4 (counterexample part) -/

/-- Claim C4 counterexample: `errorStore`'s only file under `/s/` has
status 'error', not 'ok', yet `markMissingUnderPath "/s/"` marks it missing
and returns its path — so the call marks (and reports) files beyond the
previously-ok ones. -/
theorem markMissingUnderPath_marks_error_files :
    (∀ f ∈ errorStore.fontFiles, f.status ≠ FileStatus.ok) ∧
    (markMissingUnderPath errorStore "/s/").2 = ["/s/A.ttf"] ∧
    (∀ f ∈ (markMissingUnderPath errorStore "/s/").1.fontFiles,
       f.status = FileStatus.missing) := by
  decide

/-! ## Claim C5 -/

/-- Claim C5: evaluation at the failing input.  With the file present on
disk (stat succeeds and reports a regular file) and introspection failing,
`scanFilePath` marks `/s/A.ttf` missing and reports it in `missingPaths`,
while `scanSource` on the same situation records status 'error' and
continues to the remaining files (`B.otf` is still scanned, `scanned = 2`);
a later successful rescan of the error file restores status 'ok'. -/
theorem scanFilePath_introspection_failure_divergence :
    ((scanFilePath baseStore "/s/A.ttf"
        (some { size := 10, mtimeMs := 5, isFile := true })
        none).1.fontFiles.map (fun f => (f.path, f.status))) =
      [("/s/A.ttf", FileStatus.missing)] ∧
    (scanFilePath baseStore "/s/A.ttf"
        (some { size := 10, mtimeMs := 5, isFile := true }) none).2.2 =
      ["/s/A.ttf"] ∧
    ((scanSource baseStore 1 c5Walk).1.fontFiles.map
      (fun f => (f.path, f.status))) =
      [("/s/A.ttf", FileStatus.error), ("/s/B.otf", FileStatus.ok)] ∧
    (scanSource baseStore 1 c5Walk).2.1 = 2 ∧
    ((upsertScanResult (scanSource baseStore 1 c5Walk).1 "/s/A.ttf" 1
        ".ttf" 10 5 alphaScan).fontFiles.map
      (fun f => (f.path, f.status))) =
      [("/s/A.ttf", FileStatus.ok), ("/s/B.otf", FileStatus.ok)] := by
  decide

/-! ## Claim C7 (counterexample part) -/

/-- Claim C7 counterexample: `singleColStore` has one single-select column
whose two values have ids 1 and 2; `setFamilyFacetValues` accepts both ids
for family 1 and associates both, so the store write path does not enforce
the at-most-one-per-single-select-column invariant. -/
theorem setFamilyFacetValues_no_single_enforcement :
    singleColStore.facetColumns =
      [{ id := 1, key := "cls", displayName := "Class",
         type := FacetColumnType.single }] ∧
    (∀ v ∈ singleColStore.facetValues, v.columnId = 1) ∧
    ((setFamilyFacetValues singleColStore 1 [1, 2]).familyFacetValues.filter
        (fun a => decide (a.familyId = 1))).map (fun a => a.valueId) =
      [1, 2] := by
  decide

/-! ## Claim C8 (counterexample part) -/

/-- Claim C8 counterexample: syncing `boolValuedSchema` — a boolean column
that lists two values — into the empty store leaves that column with two
values, not one synthetic value; the normalization only applies when the
schema lists no values for the boolean column. -/
theorem syncFacetSchema_boolean_keeps_listed_values :
    ((syncFacetSchema emptyStore boolValuedSchema).facetValues.map
      (fun v => v.valueKey)) = ["x", "y"] ∧
    ((syncFacetSchema emptyStore boolValuedSchema).facetColumns.map
      (fun c => c.type)) = [FacetColumnType.boolean] := by
  decide

/-! ## Claim C1 (amended part) -/

/-- Claim C1 (amended): for an installable face of an ok-status file,
`setFaceActivated` reports `shouldRegister = true` exactly when activation
was requested and the file's active-face count after the call is 1, and
`shouldUnregister = true` exactly when deactivation was requested and the
post-call count is 0.  Consequently activating a second face of an
already-active file yields `shouldRegister = false`, but the guards look
only at the post-call count, so a redundant re-activation of the sole
active face requests a register again. -/
theorem setFaceActivated_register_characterization (s : Store)
    (faceId : Nat) (b : Bool) (face : Face) (file : FontFile)
    (hface : findFaceById s faceId = some face)
    (hfile : findFileById s face.fileId = some file)
    (hinst : face.installSupported = true)
    (hok : file.status = FileStatus.ok) :
    ∃ u, (setFaceActivated s faceId b).2 = some u ∧
      u.activated = b ∧
      (u.shouldRegister = true ↔ b = true ∧
        activeFaceCount (setFaceActivated s faceId b).1 face.fileId = 1) ∧
      (u.shouldUnregister = true ↔ b = false ∧
        activeFaceCount (setFaceActivated s faceId b).1 face.fileId = 0) ∧
      ((∃ other ∈ s.faces, other.id ≠ faceId ∧ other.fileId = face.fileId ∧
          other.activated = true) → u.shouldRegister = false) := by
  have hface_mem : face ∈ s.faces := List.mem_of_find?_eq_some hface
  have hface_id : face.id = faceId := by
    have := List.find?_some hface
    simpa using this
  have heval : setFaceActivated s faceId b =
      ({ s with faces := s.faces.map (fun fc =>
           if decide (fc.id = faceId) then { fc with activated := b }
           else fc) },
       some { filePath := file.path, installSupported := true,
              shouldRegister := b && decide (activeFaceCount
                { s with faces := s.faces.map (fun fc =>
                    if decide (fc.id = faceId) then { fc with activated := b }
                    else fc) } face.fileId = 1),
              shouldUnregister := !b && decide (activeFaceCount
                { s with faces := s.faces.map (fun fc =>
                    if decide (fc.id = faceId) then { fc with activated := b }
                    else fc) } face.fileId = 0),
              activated := b }) := by
    simp [setFaceActivated, hface, hfile, hinst, hok]
  refine ⟨_, by rw [heval], rfl, ?_, ?_, ?_⟩
  · rw [heval]
    simp [Bool.and_eq_true]
  · rw [heval]
    simp [Bool.and_eq_true]
  · rintro ⟨other, hother, hne, hof, hoa⟩
    show (b && decide (activeFaceCount _ face.fileId = 1)) = false
    cases b with
    | false => simp
    | true =>
      simp only [Bool.true_and, decide_eq_false_iff_not]
      intro hcount
      have hmf : ({ face with activated := true } : Face) ∈
          ({ s with faces := s.faces.map (fun fc =>
              if decide (fc.id = faceId) then { fc with activated := true }
              else fc) } : Store).faces := by
        have := List.mem_map_of_mem (fun fc =>
          if decide (fc.id = faceId) then { fc with activated := true }
          else fc) hface_mem
        simpa [hface_id] using this
      have ho : other ∈
          ({ s with faces := s.faces.map (fun fc =>
              if decide (fc.id = faceId) then { fc with activated := true }
              else fc) } : Store).faces := by
        have := List.mem_map_of_mem (fun fc =>
          if decide (fc.id = faceId) then { fc with activated := true }
          else fc) hother
        simpa [hne] using this
      have hmf_f : ({ face with activated := true } : Face) ∈
          ({ s with faces := s.faces.map (fun fc =>
              if decide (fc.id = faceId) then { fc with activated := true }
              else fc) } : Store).faces.filter
            (fun fc => decide (fc.fileId = face.fileId) && fc.activated) :=
        List.mem_filter.mpr ⟨hmf, by simp⟩
      have ho_f : other ∈
          ({ s with faces := s.faces.map (fun fc =>
              if decide (fc.id = faceId) then { fc with activated := true }
              else fc) } : Store).faces.filter
            (fun fc => decide (fc.fileId = face.fileId) && fc.activated) :=
        List.mem_filter.mpr ⟨ho, by simp [hof, hoa]⟩
      have hdist : ({ face with activated := true } : Face) ≠ other := by
        intro hcontra
        apply hne
        rw [← hface_id, ← hcontra]
      have := two_mem_le_length hmf_f ho_f hdist
      unfold activeFaceCount at hcount
      omega

/-- Claim C1 witness: the characterization applied to `baseStore`'s face. -/
theorem setFaceActivated_register_characterization_witness :
    ∃ u, (setFaceActivated baseStore 1 true).2 = some u ∧
      u.activated = true ∧
      (u.shouldRegister = true ↔ true = true ∧
        activeFaceCount (setFaceActivated baseStore 1 true).1 1 = 1) ∧
      (u.shouldUnregister = true ↔ true = false ∧
        activeFaceCount (setFaceActivated baseStore 1 true).1 1 = 0) ∧
      ((∃ other ∈ baseStore.faces, other.id ≠ 1 ∧ other.fileId = 1 ∧
          other.activated = true) → u.shouldRegister = false) :=
  setFaceActivated_register_characterization baseStore 1 true
    { id := 1, familyId := 1, fileId := 1, indexInCollection := 0,
      postscriptName := "Alpha-Reg", fullName := "Alpha Regular",
      styleName := "Regular", weight := some 400, width := none,
      slant := none, isItalic := false, isVariable := false,
      activated := false, previewSupported := true,
      installSupported := true }
    { id := 1, sourceId := 1, path := "/s/A.ttf", ext := ".ttf",
      fileSize := 10, mtime := 5, lastSeenAt := 1, status := .ok }
    (by decide) (by decide) (by decide) (by decide)

/-! ## Claim C4 (amended part) -/

/-- Claim C4 (amended): `markMissingUnderPath p` marks exactly the files
whose path starts with `p` and whose status is not already 'missing' —
previously-ok and previously-error files alike, not only the ok ones —
setting each of their faces' activation flags to false, returns exactly
the paths of the files it marked, and leaves every other file row and
face row unchanged. -/
theorem markMissingUnderPath_spec (s : Store) (p : String)
    (hwf : filesWf s) :
    ((markMissingUnderPath s p).2 = ((s.fontFiles.filter (fun f =>
        strIsPrefixOf p f.path &&
          !(decide (f.status = FileStatus.missing)))).map
      (fun r => r.path))) ∧
    (∀ f ∈ s.fontFiles, strIsPrefixOf p f.path = true →
       f.status ≠ FileStatus.missing →
       ∀ g ∈ (markMissingUnderPath s p).1.fontFiles, g.id = f.id →
         g.status = FileStatus.missing) ∧
    (∀ f ∈ s.fontFiles, strIsPrefixOf p f.path = true →
       f.status ≠ FileStatus.missing →
       ∀ fc ∈ (markMissingUnderPath s p).1.faces, fc.fileId = f.id →
         fc.activated = false) ∧
    (∀ f ∈ s.fontFiles,
       ¬(strIsPrefixOf p f.path = true ∧ f.status ≠ FileStatus.missing) →
       f ∈ (markMissingUnderPath s p).1.fontFiles) ∧
    (∀ fc ∈ s.faces, (∀ f ∈ s.fontFiles, f.id = fc.fileId →
        ¬(strIsPrefixOf p f.path = true ∧ f.status ≠ FileStatus.missing)) →
       fc ∈ (markMissingUnderPath s p).1.faces) := by
  obtain ⟨hids, hpaths, hbound⟩ := hwf
  have hmem_rows : ∀ f ∈ s.fontFiles, strIsPrefixOf p f.path = true →
      f.status ≠ FileStatus.missing →
      f ∈ s.fontFiles.filter (fun f => strIsPrefixOf p f.path &&
        !(decide (f.status = FileStatus.missing))) := by
    intro f hf hpre hstat
    exact List.mem_filter.mpr ⟨hf, by simp [hpre, hstat]⟩
  cases hre : (s.fontFiles.filter (fun f => strIsPrefixOf p f.path &&
      !(decide (f.status = FileStatus.missing)))).isEmpty with
  | true =>
    have hnil : s.fontFiles.filter (fun f => strIsPrefixOf p f.path &&
        !(decide (f.status = FileStatus.missing))) = [] := by
      simpa [List.isEmpty_iff] using hre
    have heval : markMissingUnderPath s p = (s, []) := by
      simp only [markMissingUnderPath]
      rw [hre]
      simp
    refine ⟨?_, ?_, ?_, ?_, ?_⟩
    · rw [heval, hnil]
      rfl
    · intro f hf hpre hstat
      exact absurd (hnil ▸ hmem_rows f hf hpre hstat) (by simp)
    · intro f hf hpre hstat
      exact absurd (hnil ▸ hmem_rows f hf hpre hstat) (by simp)
    · intro f hf _
      rw [heval]
      exact hf
    · intro fc hfc _
      rw [heval]
      exact hfc
  | false =>
    have heval : markMissingUnderPath s p =
        (markFilesMissingByIds { s with clock := s.clock + 1 }
          ((s.fontFiles.filter (fun f => strIsPrefixOf p f.path &&
            !(decide (f.status = FileStatus.missing)))).map (fun r => r.id))
          s.clock,
         (s.fontFiles.filter (fun f => strIsPrefixOf p f.path &&
            !(decide (f.status = FileStatus.missing)))).map
           (fun r => r.path)) := by
      simp only [markMissingUnderPath, tickNow]
      rw [hre]
      simp
    refine ⟨by rw [heval], ?_, ?_, ?_, ?_⟩
    · intro f hf hpre hstat g hg hgid
      rw [heval] at hg
      simp only [markFilesMissingByIds] at hg
      obtain ⟨g0, hg0, hg0g⟩ := List.mem_map.mp hg
      have hfid : f.id ∈ (s.fontFiles.filter (fun f =>
          strIsPrefixOf p f.path &&
            !(decide (f.status = FileStatus.missing)))).map (fun r => r.id) :=
        List.mem_map_of_mem (fun r => r.id) (hmem_rows f hf hpre hstat)
      by_cases hc : ((s.fontFiles.filter (fun f => strIsPrefixOf p f.path &&
          !(decide (f.status = FileStatus.missing)))).map
            (fun r => r.id)).contains g0.id = true
      · rw [if_pos hc] at hg0g
        rw [← hg0g]
      · rw [if_neg hc] at hg0g
        subst hg0g
        rw [hgid] at hc
        exact absurd (by simpa using hfid) hc
    · intro f hf hpre hstat fc hfc hfcid
      rw [heval] at hfc
      simp only [markFilesMissingByIds] at hfc
      obtain ⟨fc0, hfc0, hfc0fc⟩ := List.mem_map.mp hfc
      have hfid : f.id ∈ (s.fontFiles.filter (fun f =>
          strIsPrefixOf p f.path &&
            !(decide (f.status = FileStatus.missing)))).map (fun r => r.id) :=
        List.mem_map_of_mem (fun r => r.id) (hmem_rows f hf hpre hstat)
      by_cases hc : ((s.fontFiles.filter (fun f => strIsPrefixOf p f.path &&
          !(decide (f.status = FileStatus.missing)))).map
            (fun r => r.id)).contains fc0.fileId = true
      · rw [if_pos hc] at hfc0fc
        rw [← hfc0fc]
      · rw [if_neg hc] at hfc0fc
        subst hfc0fc
        rw [hfcid] at hc
        exact absurd (by simpa using hfid) hc
    · intro f hf hnot
      rw [heval]
      simp only [markFilesMissingByIds]
      refine List.mem_map.mpr ⟨f, hf, ?_⟩
      have hcon : ¬ f.id ∈ ((s.fontFiles.filter (fun f =>
          strIsPrefixOf p f.path &&
            !(decide (f.status = FileStatus.missing)))).map (fun r => r.id)) := by
        intro hmem
        obtain ⟨r, hr, hrid⟩ := List.mem_map.mp hmem
        have hr_mem : r ∈ s.fontFiles := (List.mem_filter.mp hr).1
        have hr_pred := (List.mem_filter.mp hr).2
        have : r = f := List.inj_on_of_nodup_map hids hr_mem hf hrid
        subst this
        simp only [Bool.and_eq_true, Bool.not_eq_true',
          decide_eq_false_iff_not] at hr_pred
        exact hnot ⟨hr_pred.1, hr_pred.2⟩
      rw [if_neg (by simpa using hcon)]
    · intro fc hfc hnot
      rw [heval]
      simp only [markFilesMissingByIds]
      refine List.mem_map.mpr ⟨fc, hfc, ?_⟩
      have hcon : ¬ fc.fileId ∈ ((s.fontFiles.filter (fun f =>
          strIsPrefixOf p f.path &&
            !(decide (f.status = FileStatus.missing)))).map (fun r => r.id)) := by
        intro hmem
        obtain ⟨r, hr, hrid⟩ := List.mem_map.mp hmem
        have hr_mem : r ∈ s.fontFiles := (List.mem_filter.mp hr).1
        have hr_pred := (List.mem_filter.mp hr).2
        simp only [Bool.and_eq_true, Bool.not_eq_true',
          decide_eq_false_iff_not] at hr_pred
        exact hnot r hr_mem hrid ⟨hr_pred.1, hr_pred.2⟩
      rw [if_neg (by simpa using hcon)]

/-- Claim C4 witness: the amended theorem applied to `errorStore` and the
prefix `/s/`. -/
theorem markMissingUnderPath_spec_witness :
    ((markMissingUnderPath errorStore "/s/").2 =
      ((errorStore.fontFiles.filter (fun f =>
          strIsPrefixOf "/s/" f.path &&
            !(decide (f.status = FileStatus.missing)))).map
        (fun r => r.path))) ∧
    (∀ f ∈ errorStore.fontFiles, strIsPrefixOf "/s/" f.path = true →
       f.status ≠ FileStatus.missing →
       ∀ g ∈ (markMissingUnderPath errorStore "/s/").1.fontFiles,
         g.id = f.id → g.status = FileStatus.missing) ∧
    (∀ f ∈ errorStore.fontFiles, strIsPrefixOf "/s/" f.path = true →
       f.status ≠ FileStatus.missing →
       ∀ fc ∈ (markMissingUnderPath errorStore "/s/").1.faces,
         fc.fileId = f.id → fc.activated = false) ∧
    (∀ f ∈ errorStore.fontFiles,
       ¬(strIsPrefixOf "/s/" f.path = true ∧
          f.status ≠ FileStatus.missing) →
       f ∈ (markMissingUnderPath errorStore "/s/").1.fontFiles) ∧
    (∀ fc ∈ errorStore.faces, (∀ f ∈ errorStore.fontFiles,
        f.id = fc.fileId →
        ¬(strIsPrefixOf "/s/" f.path = true ∧
           f.status ≠ FileStatus.missing)) →
       fc ∈ (markMissingUnderPath errorStore "/s/").1.faces) :=
  markMissingUnderPath_spec errorStore "/s/" (by unfold filesWf; decide)

/-! ## Claim C7 (amended part) -/

theorem famfv_foldl (fid : Nat) (l : List Nat) (st : Store) :
    l.foldl (fun acc vid => { acc with familyFacetValues :=
      acc.familyFacetValues ++ [{ familyId := fid, valueId := vid }] }) st =
    { st with
      familyFacetValues := st.familyFacetValues ++
        l.map (fun v => { familyId := fid, valueId := v }) } := by
  induction l generalizing st with
  | nil => simp
  | cons v rest ih =>
    rw [List.foldl_cons, ih]
    simp

theorem dedupKeepFirst_aux_mem (l : List Nat) : ∀ (acc : List Nat) (x : Nat),
    x ∈ l.foldl (fun acc x => if acc.contains x then acc else acc ++ [x]) acc →
    x ∈ acc ∨ x ∈ l := by
  induction l with
  | nil =>
    intro acc x h
    exact Or.inl (by simpa using h)
  | cons a t ih =>
    intro acc x h
    rw [List.foldl_cons] at h
    rcases ih _ x h with h1 | h2
    · by_cases hc : acc.contains a = true
      · rw [if_pos hc] at h1
        exact Or.inl h1
      · rw [if_neg hc] at h1
        rcases List.mem_append.mp h1 with h3 | h4
        · exact Or.inl h3
        · have : x = a := by simpa using h4
          exact Or.inr (this ▸ List.mem_cons_self a t)
    · exact Or.inr (List.mem_cons_of_mem a h2)

theorem dedupKeepFirst_aux_nodup (l : List Nat) : ∀ acc : List Nat,
    acc.Nodup →
    (l.foldl (fun acc x => if acc.contains x then acc else acc ++ [x])
      acc).Nodup := by
  induction l with
  | nil =>
    intro acc h
    simpa using h
  | cons a t ih =>
    intro acc h
    rw [List.foldl_cons]
    by_cases hc : acc.contains a = true
    · rw [if_pos hc]
      exact ih acc h
    · rw [if_neg hc]
      apply ih
      have hna : ¬ a ∈ acc := by simpa using hc
      simp [List.nodup_append, h, hna]

theorem dedupKeepFirst_mem {l : List Nat} {x : Nat}
    (h : x ∈ dedupKeepFirst l) : x ∈ l := by
  rcases dedupKeepFirst_aux_mem l [] x h with h1 | h2
  · simp at h1
  · exact h2

theorem dedupKeepFirst_nodup (l : List Nat) : (dedupKeepFirst l).Nodup :=
  dedupKeepFirst_aux_nodup l [] (by simp)

theorem list_map_filter_comm {α β : Type} (f : α → β) (p : β → Bool) :
    ∀ l : List α, (l.map f).filter p = (l.filter (fun a => p (f a))).map f := by
  intro l
  induction l with
  | nil => rfl
  | cons a t ih =>
    by_cases hc : p (f a) = true
    · simp [List.filter_cons, hc, ih]
    · simp [List.filter_cons, hc, ih]

/-- The closed form of `setFamilyFacetValues`: the family's rows are
replaced by the deduplicated requested ids, other families untouched. -/
theorem setFamilyFacetValues_closed (s : Store) (familyId : Nat)
    (valueIds : List Nat) :
    setFamilyFacetValues s familyId valueIds =
    { s with
      familyFacetValues :=
        (s.familyFacetValues.filter
          (fun a => !(decide (a.familyId = familyId)))) ++
          (dedupKeepFirst valueIds).map
            (fun v => { familyId := familyId, valueId := v }) } := by
  unfold setFamilyFacetValues
  rw [famfv_foldl]

/-- Projection form of `setFamilyFacetValues_closed`. -/
theorem setFamilyFacetValues_famfv (s : Store) (familyId : Nat)
    (valueIds : List Nat) :
    (setFamilyFacetValues s familyId valueIds).familyFacetValues =
    (s.familyFacetValues.filter
      (fun a => !(decide (a.familyId = familyId)))) ++
      (dedupKeepFirst valueIds).map
        (fun v => { familyId := familyId, valueId := v }) := by
  rw [setFamilyFacetValues_closed]

/-- Claim C7 (amended): `setFamilyFacetValues` itself enforces no
per-column restriction — it replaces the family's associations with
exactly the deduplicated requested ids, whatever columns they belong to;
the at-most-one-value-per-single-select-column invariant is instead
guaranteed by the renderer's toggle construction, which strips every value
id of the single-select column from the family's current ids before adding
the chosen one, so a toggle leaves at most one value of the column
associated with the family. -/
theorem singleSelect_toggle_invariant (s : Store) (familyId valueId : Nat)
    (col : FacetColumnRow) (hcol : col ∈ s.facetColumns)
    (hty : col.type = FacetColumnType.single)
    (current colIds : List Nat)
    (hids : colIds = (s.facetValues.filter
        (fun v => decide (v.columnId = col.id))).map (fun v => v.id)) :
    (∀ ids : List Nat,
      ((setFamilyFacetValues s familyId ids).familyFacetValues.filter
        (fun a => decide (a.familyId = familyId))).map (fun a => a.valueId) =
        dedupKeepFirst ids) ∧
    ((setFamilyFacetValues s familyId
        (toggleSingleNext current colIds valueId)).familyFacetValues.filter
      (fun a => decide (a.familyId = familyId) &&
        colIds.contains a.valueId)).length ≤ 1 := by
  constructor
  · intro ids
    rw [setFamilyFacetValues_famfv, List.filter_append]
    have h1 : (s.familyFacetValues.filter
        (fun a => !(decide (a.familyId = familyId)))).filter
          (fun a => decide (a.familyId = familyId)) = [] := by
      apply List.filter_eq_nil_iff.mpr
      intro a ha
      have := (List.mem_filter.mp ha).2
      simpa using this
    rw [h1, List.nil_append, list_map_filter_comm]
    simp
    exact list_map_id_of_mem (fun a _ => rfl)
  · rw [setFamilyFacetValues_famfv, List.filter_append]
    have h1 : (s.familyFacetValues.filter
        (fun a => !(decide (a.familyId = familyId)))).filter
          (fun a => decide (a.familyId = familyId) &&
            colIds.contains a.valueId) = [] := by
      apply List.filter_eq_nil_iff.mpr
      intro a ha
      have := (List.mem_filter.mp ha).2
      simp only [Bool.not_eq_true', decide_eq_false_iff_not] at this
      simp [this]
    rw [h1, List.nil_append, list_map_filter_comm, List.length_map]
    apply nodup_all_eq_length_le_one
      (List.Nodup.filter _ (dedupKeepFirst_nodup _))
    intro x hx
    have hxd : x ∈ dedupKeepFirst (toggleSingleNext current colIds valueId) :=
      (List.mem_filter.mp hx).1
    have hq := (List.mem_filter.mp hx).2
    have hxin : x ∈ colIds := by simpa using hq
    have hnext := dedupKeepFirst_mem hxd
    unfold toggleSingleNext at hnext
    by_cases hcur : current.contains valueId = true
    · rw [if_pos hcur] at hnext
      have := (List.mem_filter.mp hnext).2
      exact absurd hxin (by simpa using this)
    · rw [if_neg hcur] at hnext
      rcases List.mem_append.mp hnext with h3 | h4
      · have := (List.mem_filter.mp h3).2
        exact absurd hxin (by simpa using this)
      · simpa using h4

/-- Claim C7 witness: the amended theorem applied to `singleColStore`,
toggling value 2 of the single-select column for family 1 whose current
ids are `[1]`. -/
theorem singleSelect_toggle_invariant_witness :
    (∀ ids : List Nat,
      ((setFamilyFacetValues singleColStore 1 ids).familyFacetValues.filter
        (fun a => decide (a.familyId = 1))).map (fun a => a.valueId) =
        dedupKeepFirst ids) ∧
    ((setFamilyFacetValues singleColStore 1
        (toggleSingleNext [1] [1, 2] 2)).familyFacetValues.filter
      (fun a => decide (a.familyId = 1) &&
        ([1, 2] : List Nat).contains a.valueId)).length ≤ 1 :=
  singleSelect_toggle_invariant singleColStore 1 2
    { id := 1, key := "cls", displayName := "Class",
      type := FacetColumnType.single }
    (by decide) (by decide) [1] [1, 2] (by decide)

/-! ## Claim C10 -/

/-- Every family row of `s` survives into `t` with its id and key. -/
def FamPreserved (s t : Store) : Prop :=
  ∀ fam ∈ s.families, ∃ fam' ∈ t.families,
    fam'.id = fam.id ∧ fam'.familyKey = fam.familyKey

theorem famPreserved_refl (s : Store) : FamPreserved s s :=
  fun fam h => ⟨fam, h, rfl, rfl⟩

theorem famPreserved_of_eq {s t : Store} (h : t.families = s.families) :
    FamPreserved s t :=
  fun fam hm => ⟨fam, h ▸ hm, rfl, rfl⟩

theorem famPreserved_trans {s t u : Store} (h1 : FamPreserved s t)
    (h2 : FamPreserved t u) : FamPreserved s u := by
  intro fam hm
  obtain ⟨f1, hf1, hid1, hk1⟩ := h1 fam hm
  obtain ⟨f2, hf2, hid2, hk2⟩ := h2 f1 hf1
  exact ⟨f2, hf2, hid2.trans hid1, hk2.trans hk1⟩

theorem upsertFamilyRow_famPreserved (s : Store) (k n : String) :
    FamPreserved s (upsertFamilyRow s k n) := by
  intro fam hm
  unfold upsertFamilyRow
  by_cases hc : s.families.any (fun f => decide (f.familyKey = k)) = true
  · rw [if_pos hc]
    refine ⟨(fun f => if decide (f.familyKey = k) then
        { f with familyNameDisplay := n } else f) fam, ?_, ?_, ?_⟩
    · exact List.mem_map_of_mem _ hm
    · by_cases h2 : fam.familyKey = k <;> simp [h2]
    · by_cases h2 : fam.familyKey = k <;> simp [h2]
  · rw [if_neg hc]
    exact ⟨fam, List.mem_append.mpr (Or.inl hm), rfl, rfl⟩

theorem insertScanFace_families (ext : String) (fid : Nat) (s : Store)
    (face : ScanFace) :
    (insertScanFace ext fid s face).families =
    (upsertFamilyRow s (normalizeFamilyKey face.familyName)
      face.familyName).families := by
  simp only [insertScanFace]
  cases findFamilyByKey
      (upsertFamilyRow s (normalizeFamilyKey face.familyName) face.familyName)
      (normalizeFamilyKey face.familyName) <;> rfl

theorem insertScanFace_famPreserved (ext : String) (fid : Nat) (s : Store)
    (face : ScanFace) : FamPreserved s (insertScanFace ext fid s face) := by
  intro fam hm
  obtain ⟨f1, hf1, hid, hk⟩ := upsertFamilyRow_famPreserved s
    (normalizeFamilyKey face.familyName) face.familyName fam hm
  exact ⟨f1, (insertScanFace_families ext fid s face) ▸ hf1, hid, hk⟩

theorem insertFaces_famPreserved (ext : String) (fid : Nat) :
    ∀ (faces : List ScanFace) (s : Store),
    FamPreserved s (faces.foldl (insertScanFace ext fid) s) := by
  intro faces
  induction faces with
  | nil =>
    intro s
    exact famPreserved_refl s
  | cons f t ih =>
    intro s
    rw [List.foldl_cons]
    exact famPreserved_trans (insertScanFace_famPreserved ext fid s f) (ih _)

theorem upsertFontFileRow_families (s : Store) (p : String) (sid : Nat)
    (ext : String) (sz mt now : Nat) (st : FileStatus) :
    (upsertFontFileRow s p sid ext sz mt now st).families = s.families := by
  unfold upsertFontFileRow
  split <;> rfl

theorem upsertScanResult_famPreserved (s : Store) (p : String) (sid : Nat)
    (ext : String) (sz mt : Nat) (res : ScanFileResult) :
    FamPreserved s (upsertScanResult s p sid ext sz mt res) := by
  unfold upsertScanResult
  simp only [tickNow]
  cases findFileByPath
      (upsertFontFileRow { s with clock := s.clock + 1 } p sid ext sz mt
        s.clock .ok) p with
  | none =>
    exact famPreserved_of_eq (upsertFontFileRow_families _ p sid ext sz mt
      s.clock .ok)
  | some fr =>
    refine famPreserved_trans (t := { upsertFontFileRow
        { s with clock := s.clock + 1 } p sid ext sz mt s.clock .ok with
      faces := (upsertFontFileRow { s with clock := s.clock + 1 } p sid ext
          sz mt s.clock .ok).faces.filter
        (fun fc => !(decide (fc.fileId = fr.id))) }) ?_ ?_
    · exact famPreserved_of_eq (upsertFontFileRow_families _ p sid ext sz mt
        s.clock .ok)
    · exact insertFaces_famPreserved ext fr.id res.faces _

theorem markFileMissing_families (s : Store) (p : String) :
    (markFileMissing s p).1.families = s.families := by
  unfold markFileMissing
  cases findFileByPath s p <;> rfl

theorem markMissingUnderPath_families (s : Store) (p : String) :
    (markMissingUnderPath s p).1.families = s.families := by
  unfold markMissingUnderPath
  simp only [tickNow]
  split <;> rfl

theorem scanFilePath_famPreserved (s : Store) (p : String)
    (stat : Option StatResult) (sc : Option ScanFileResult) :
    FamPreserved s (scanFilePath s p stat sc).1 := by
  unfold scanFilePath
  by_cases hext :
      (!(SUPPORTED_EXTENSIONS.contains (strToLower (extname p)))) = true
  · simp only [hext, if_true]
    exact famPreserved_refl s
  · simp only [hext, if_false]
    cases findSourceForPath s p with
    | none => exact famPreserved_refl s
    | some source =>
      cases stat with
      | none => exact famPreserved_of_eq (markFileMissing_families s p)
      | some st =>
        by_cases hff : (!st.isFile) = true
        · simp only [hff, if_true]
          exact famPreserved_refl s
        · simp only [hff, if_false]
          cases sc with
          | none => exact famPreserved_of_eq (markFileMissing_families s p)
          | some r =>
            exact upsertScanResult_famPreserved s p source.id
              (strToLower (extname p)) st.size st.mtimeMs r

theorem scanSourceStep_famPreserved (sid : Nat) (acc : Store × Nat)
    (e : WalkEntry) : FamPreserved acc.1 (scanSourceStep sid acc e).1 := by
  unfold scanSourceStep
  by_cases hext :
      (!(SUPPORTED_EXTENSIONS.contains (strToLower (extname e.path)))) = true
  · simp only [hext, if_true]
    exact famPreserved_refl _
  · simp only [hext, if_false, tickNow]
    cases e.scanOutcome with
    | none =>
      exact famPreserved_of_eq (upsertFontFileRow_families
        { acc.1 with clock := acc.1.clock + 1 } e.path sid
        (strToLower (extname e.path)) e.size e.mtimeMs acc.1.clock .error)
    | some r =>
      exact upsertScanResult_famPreserved acc.1 e.path sid
        (strToLower (extname e.path)) e.size e.mtimeMs r

theorem scanSource_foldl_famPreserved (sid : Nat) :
    ∀ (files : List WalkEntry) (acc : Store × Nat),
    FamPreserved acc.1 (files.foldl (scanSourceStep sid) acc).1 := by
  intro files
  induction files with
  | nil =>
    intro acc
    exact famPreserved_refl _
  | cons e t ih =>
    intro acc
    rw [List.foldl_cons]
    exact famPreserved_trans (scanSourceStep_famPreserved sid acc e) (ih _)

theorem scanSource_famPreserved (s : Store) (sid : Nat)
    (files : List WalkEntry) :
    FamPreserved s (scanSource s sid files).1 := by
  unfold scanSource
  simp only [tickNow]
  cases s.sources.find? (fun src => decide (src.id = sid)) with
  | none => exact famPreserved_refl s
  | some source =>
    have hbase : FamPreserved s
        (files.foldl (scanSourceStep source.id)
          ({ s with clock := s.clock + 1 }, 0)).1 :=
      scanSource_foldl_famPreserved source.id files
        ({ s with clock := s.clock + 1 }, 0)
    apply famPreserved_trans hbase
    apply famPreserved_of_eq
    split
    · rename_i heq
      exact absurd heq (by simp)
    · rename_i b heq
      cases heq
      split <;> rfl

theorem upsertFacetValue_families (s : Store) (cid : Nat)
    (v : String × String) : (upsertFacetValue s cid v).families = s.families := by
  unfold upsertFacetValue
  split <;> rfl

theorem foldl_families_eq {α : Type} (g : Store → α → Store)
    (h : ∀ st a, (g st a).families = st.families) :
    ∀ (l : List α) (st : Store), (l.foldl g st).families = st.families := by
  intro l
  induction l with
  | nil =>
    intro st
    rfl
  | cons a t ih =>
    intro st
    rw [List.foldl_cons, ih, h]

theorem syncFacetColumn_families (s : Store) (col : FacetSchemaColumn) :
    (syncFacetColumn s col).families = s.families := by
  have hup : (upsertFacetColumn s col).families = s.families := by
    unfold upsertFacetColumn
    split <;> rfl
  simp only [syncFacetColumn]
  cases (upsertFacetColumn s col).facetColumns.find?
      (fun c => decide (c.key = col.key)) with
  | none => exact hup
  | some row =>
    rw [foldl_families_eq _ (fun st a => upsertFacetValue_families st row.id a)]
    exact hup

theorem syncFacetSchema_families (s : Store) (schema : FacetSchemaFile) :
    (syncFacetSchema s schema).families = s.families := by
  unfold syncFacetSchema
  rw [foldl_families_eq _ syncFacetColumn_families]
  rfl

theorem setFaceActivated_families (s : Store) (faceId : Nat) (b : Bool) :
    ((setFaceActivated s faceId b).1).families = s.families := by
  cases hf : findFaceById s faceId with
  | none => simp [setFaceActivated, hf]
  | some face =>
    cases hfl : findFileById s face.fileId with
    | none => simp [setFaceActivated, hf, hfl]
    | some file =>
      by_cases hc : (!face.installSupported ||
          !(decide (file.status = FileStatus.ok))) = true
      · simp [setFaceActivated, hf, hfl, hc]
      · simp [setFaceActivated, hf, hfl, hc]

/-- Claim C10: no store operation deletes a `families` row — every family
present before any of the modelled operations survives it with its id and
key (rescans replace only faces; the missing-file operations touch only
`font_files` and `faces`; the facet operations touch only facet tables) —
and `listFamilies` returns an entry for every family row, with an empty
faces array when no face row references the family any more. -/
theorem families_never_deleted (s : Store) (p1 p2 p3 p4 : String)
    (rid sid : Nat) (ext : String) (sz mt : Nat) (res : ScanFileResult)
    (stat : Option StatResult) (sc : Option ScanFileResult)
    (files : List WalkEntry) (schema : FacetSchemaFile)
    (fid : Nat) (ids : List Nat) (faceId : Nat) (b : Bool) :
    FamPreserved s (addSource s p1) ∧
    FamPreserved s (removeSource s rid) ∧
    FamPreserved s (markFileMissing s p2).1 ∧
    FamPreserved s (markMissingUnderPath s p3).1 ∧
    FamPreserved s (upsertScanResult s p4 sid ext sz mt res) ∧
    FamPreserved s (scanFilePath s p4 stat sc).1 ∧
    FamPreserved s (scanSource s sid files).1 ∧
    FamPreserved s (syncFacetSchema s schema) ∧
    FamPreserved s (setFamilyFacetValues s fid ids) ∧
    FamPreserved s (setFaceActivated s faceId b).1 ∧
    (∀ fam ∈ s.families, ∃ e ∈ listFamilies s, e.id = fam.id ∧
       e.familyName = fam.familyNameDisplay ∧
       ((∀ fc ∈ s.faces, fc.familyId ≠ fam.id) → e.faces = [])) := by
  refine ⟨?_, ?_, ?_, ?_, ?_, ?_, ?_, ?_, ?_, ?_, ?_⟩
  · apply famPreserved_of_eq
    unfold addSource
    simp only [tickNow]
    split <;> rfl
  · exact famPreserved_of_eq rfl
  · exact famPreserved_of_eq (markFileMissing_families s p2)
  · exact famPreserved_of_eq (markMissingUnderPath_families s p3)
  · exact upsertScanResult_famPreserved s p4 sid ext sz mt res
  · exact scanFilePath_famPreserved s p4 stat sc
  · exact scanSource_famPreserved s sid files
  · exact famPreserved_of_eq (syncFacetSchema_families s schema)
  · apply famPreserved_of_eq
    rw [setFamilyFacetValues_closed]
  · exact famPreserved_of_eq (setFaceActivated_families s faceId b)
  · intro fam hm
    unfold listFamilies
    refine ⟨_, List.mem_map_of_mem _ hm, rfl, rfl, ?_⟩
    intro hnone
    apply List.filter_eq_nil_iff.mpr
    intro fc hfc
    simp [hnone fc hfc]

/-- Claim C10 witness: `baseStore`'s family 1 survives `markFileMissing`
with its id and key. -/
theorem families_never_deleted_witness :
    ∃ fam' ∈ (markFileMissing baseStore "/s/A.ttf").1.families,
      fam'.id = 1 ∧ fam'.familyKey = "alpha" :=
  (families_never_deleted baseStore "/t/" "/s/A.ttf" "/s/" "/s/A.ttf" 1 1
      ".ttf" 10 5 alphaScan none none [] boolValuedSchema 1 [1] 1
      true).2.2.1
    { id := 1, familyKey := "alpha", familyNameDisplay := "Alpha" }
    (by decide)

/-! ## Claim C3 (amended part) -/

/-- The fields of a face row other than its surrogate id: this is what
"the face set" means once auto-increment ids are abstracted away. -/
def faceContent (fc : Face) : Nat × Nat × Nat × String × String × String ×
    Option Int × Option Int × Option Int × Bool × Bool × Bool × Bool × Bool :=
  (fc.familyId, fc.fileId, fc.indexInCollection, fc.postscriptName,
   fc.fullName, fc.styleName, fc.weight, fc.width, fc.slant, fc.isItalic,
   fc.isVariable, fc.activated, fc.previewSupported, fc.installSupported)

/-- The id of the family row holding a given key, when present. -/
def famIdByKey (F : List Family) (k : String) : Option Nat :=
  (F.find? (fun f => decide (f.familyKey = k))).map (fun f => f.id)

/-- The face content produced for one scanned face by `upsertScanResult`,
expressed against a family table `F`. -/
def scanFaceContent (F : List Family) (ext : String) (fid : Nat)
    (f : ScanFace) : Nat × Nat × Nat × String × String × String ×
    Option Int × Option Int × Option Int × Bool × Bool × Bool × Bool × Bool :=
  ((famIdByKey F (normalizeFamilyKey f.familyName)).getD 0, fid, f.index,
   f.postScriptName, f.fullName, f.styleName, f.weight, f.width, f.slant,
   f.isItalic, f.isVariable, false,
   PREVIEWABLE_EXTENSIONS.contains ext, INSTALLABLE_EXTENSIONS.contains ext)

theorem find?_key_map (g : Family → Family)
    (hk : ∀ f, (g f).familyKey = f.familyKey)
    (hi : ∀ f, (g f).id = f.id) (k2 : String) :
    ∀ l : List Family,
    Option.map (fun f => f.id)
        ((l.map g).find? (fun f => decide (f.familyKey = k2))) =
      Option.map (fun f => f.id)
        (l.find? (fun f => decide (f.familyKey = k2))) := by
  intro l
  induction l with
  | nil => rfl
  | cons a t ih =>
    rw [List.map_cons, List.find?_cons, List.find?_cons, hk a]
    by_cases h2 : a.familyKey = k2
    · simp [h2, hi a]
    · have hd : decide (a.familyKey = k2) = false := by simp [h2]
      rw [hd]
      exact ih

theorem famIdByKey_map_display (l : List Family) (k n k2 : String) :
    famIdByKey (l.map (fun f => if decide (f.familyKey = k) then
      { f with familyNameDisplay := n } else f)) k2 = famIdByKey l k2 := by
  unfold famIdByKey
  apply find?_key_map
  · intro f
    by_cases h1 : f.familyKey = k <;> simp [h1]
  · intro f
    by_cases h1 : f.familyKey = k <;> simp [h1]

theorem upsertFamilyRow_famIdByKey_preserved (s : Store) (k n k2 : String)
    (h : (famIdByKey s.families k2).isSome = true) :
    famIdByKey (upsertFamilyRow s k n).families k2 =
      famIdByKey s.families k2 := by
  unfold upsertFamilyRow
  by_cases hc : s.families.any (fun f => decide (f.familyKey = k)) = true
  · rw [if_pos hc]
    exact famIdByKey_map_display s.families k n k2
  · rw [if_neg hc]
    show famIdByKey (s.families ++ [_]) k2 = _
    unfold famIdByKey
    rw [List.find?_append]
    cases hfind : s.families.find? (fun f => decide (f.familyKey = k2)) with
    | none =>
      exfalso
      simp [famIdByKey, hfind] at h
    | some fam => rfl

theorem option_isSome_map {α β : Type} (g : α → β) (o : Option α) :
    ((o.map g).isSome) = o.isSome := by
  cases o <;> rfl

theorem upsertFamilyRow_famIdByKey_isSome (s : Store) (k n : String) :
    (famIdByKey (upsertFamilyRow s k n).families k).isSome = true := by
  unfold upsertFamilyRow famIdByKey
  by_cases hc : s.families.any (fun f => decide (f.familyKey = k)) = true
  · rw [if_pos hc, option_isSome_map]
    obtain ⟨f, hf, hfk⟩ : ∃ f ∈ s.families, f.familyKey = k := by
      simpa using hc
    exact List.find?_isSome.mpr
      ⟨(fun f => if decide (f.familyKey = k) then
          { f with familyNameDisplay := n } else f) f,
        List.mem_map_of_mem _ hf, by simp [hfk]⟩
  · rw [if_neg hc, option_isSome_map]
    exact List.find?_isSome.mpr
      ⟨({ id := s.nextFamilyId, familyKey := k,
          familyNameDisplay := n } : Family), by simp, by simp⟩

theorem insertScanFace_fontFiles (ext : String) (fid : Nat) (s : Store)
    (face : ScanFace) :
    (insertScanFace ext fid s face).fontFiles = s.fontFiles ∧
    (insertScanFace ext fid s face).clock = s.clock ∧
    (insertScanFace ext fid s face).nextFileId = s.nextFileId := by
  have h1 : (upsertFamilyRow s (normalizeFamilyKey face.familyName)
      face.familyName).fontFiles = s.fontFiles := by
    unfold upsertFamilyRow
    split <;> rfl
  have h2 : (upsertFamilyRow s (normalizeFamilyKey face.familyName)
      face.familyName).clock = s.clock := by
    unfold upsertFamilyRow
    split <;> rfl
  have h3 : (upsertFamilyRow s (normalizeFamilyKey face.familyName)
      face.familyName).nextFileId = s.nextFileId := by
    unfold upsertFamilyRow
    split <;> rfl
  simp only [insertScanFace]
  cases findFamilyByKey
      (upsertFamilyRow s (normalizeFamilyKey face.familyName)
        face.familyName)
      (normalizeFamilyKey face.familyName) <;> exact ⟨h1, h2, h3⟩

theorem insertScanFace_famIdByKey_preserved (ext : String) (fid : Nat)
    (s : Store) (face : ScanFace) (k2 : String)
    (h : (famIdByKey s.families k2).isSome = true) :
    famIdByKey (insertScanFace ext fid s face).families k2 =
      famIdByKey s.families k2 := by
  rw [insertScanFace_families]
  exact upsertFamilyRow_famIdByKey_preserved s _ _ k2 h

theorem insertScanFace_own_key_isSome (ext : String) (fid : Nat) (s : Store)
    (face : ScanFace) :
    (famIdByKey (insertScanFace ext fid s face).families
      (normalizeFamilyKey face.familyName)).isSome = true := by
  rw [insertScanFace_families]
  exact upsertFamilyRow_famIdByKey_isSome s _ _

/-- The match inside `insertScanFace` always lands in the `some` branch:
the face row is appended. -/
theorem insertScanFace_faces (ext : String) (fid : Nat) (s : Store)
    (face : ScanFace) :
    ∃ fam, findFamilyByKey
        (upsertFamilyRow s (normalizeFamilyKey face.familyName)
          face.familyName)
        (normalizeFamilyKey face.familyName) = some fam ∧
      famIdByKey (insertScanFace ext fid s face).families
        (normalizeFamilyKey face.familyName) = some fam.id ∧
      (insertScanFace ext fid s face).faces =
        s.faces ++
          [{ id := (upsertFamilyRow s (normalizeFamilyKey face.familyName)
                face.familyName).nextFaceId,
             familyId := fam.id, fileId := fid,
             indexInCollection := face.index,
             postscriptName := face.postScriptName,
             fullName := face.fullName, styleName := face.styleName,
             weight := face.weight, width := face.width, slant := face.slant,
             isItalic := face.isItalic, isVariable := face.isVariable,
             activated := false,
             previewSupported := PREVIEWABLE_EXTENSIONS.contains ext,
             installSupported := INSTALLABLE_EXTENSIONS.contains ext }] := by
  have hsome := upsertFamilyRow_famIdByKey_isSome s
    (normalizeFamilyKey face.familyName) face.familyName
  cases hfind : findFamilyByKey
      (upsertFamilyRow s (normalizeFamilyKey face.familyName)
        face.familyName)
      (normalizeFamilyKey face.familyName) with
  | none =>
    exfalso
    rw [famIdByKey] at hsome
    unfold findFamilyByKey at hfind
    rw [hfind] at hsome
    simp at hsome
  | some fam =>
    refine ⟨fam, rfl, ?_, ?_⟩
    · rw [insertScanFace_families, famIdByKey]
      unfold findFamilyByKey at hfind
      rw [hfind]
      rfl
    · have hfaces : (upsertFamilyRow s (normalizeFamilyKey face.familyName)
          face.familyName).faces = s.faces := by
        unfold upsertFamilyRow
        split <;> rfl
      simp only [insertScanFace, hfind]
      rw [hfaces]

theorem insertFaces_famIdByKey_preserved (ext : String) (fid : Nat) :
    ∀ (faces : List ScanFace) (s : Store) (k2 : String),
    (famIdByKey s.families k2).isSome = true →
    famIdByKey ((faces.foldl (insertScanFace ext fid) s).families) k2 =
      famIdByKey s.families k2 := by
  intro faces
  induction faces with
  | nil =>
    intro s k2 _
    rfl
  | cons f t ih =>
    intro s k2 h
    rw [List.foldl_cons]
    have hstep := insertScanFace_famIdByKey_preserved ext fid s f k2 h
    have h2 : (famIdByKey (insertScanFace ext fid s f).families k2).isSome =
        true := by
      rw [hstep]
      exact h
    rw [ih _ k2 h2, hstep]

theorem insertFaces_key_isSome (ext : String) (fid : Nat) :
    ∀ (faces : List ScanFace) (s : Store) (f : ScanFace), f ∈ faces →
    (famIdByKey ((faces.foldl (insertScanFace ext fid) s).families)
      (normalizeFamilyKey f.familyName)).isSome = true := by
  intro faces
  induction faces with
  | nil =>
    intro s f h
    simp at h
  | cons g t ih =>
    intro s f h
    rw [List.foldl_cons]
    rcases List.mem_cons.mp h with h1 | h2
    · subst h1
      have hs := insertScanFace_own_key_isSome ext fid s f
      have hpres := insertFaces_famIdByKey_preserved ext fid t
        (insertScanFace ext fid s f) (normalizeFamilyKey f.familyName) hs
      rw [hpres]
      exact hs
    · exact ih _ f h2

theorem insertFaces_faces_content (ext : String) (fid : Nat) :
    ∀ (faces : List ScanFace) (s : Store),
    ((faces.foldl (insertScanFace ext fid) s).faces).map faceContent =
      s.faces.map faceContent ++
        faces.map (scanFaceContent
          ((faces.foldl (insertScanFace ext fid) s).families) ext fid) := by
  intro faces
  induction faces with
  | nil =>
    intro s
    simp
  | cons f t ih =>
    intro s
    rw [List.foldl_cons]
    obtain ⟨fam, hfind, hfamid, hfaces⟩ := insertScanFace_faces ext fid s f
    rw [ih (insertScanFace ext fid s f), hfaces, List.map_append]
    have hTkey : famIdByKey
        ((t.foldl (insertScanFace ext fid)
          (insertScanFace ext fid s f)).families)
        (normalizeFamilyKey f.familyName) = some fam.id := by
      rw [insertFaces_famIdByKey_preserved ext fid t
        (insertScanFace ext fid s f) (normalizeFamilyKey f.familyName)
        (by rw [hfamid]; rfl)]
      exact hfamid
    have hcd : faceContent
        { id := (upsertFamilyRow s (normalizeFamilyKey f.familyName)
              f.familyName).nextFaceId,
          familyId := fam.id, fileId := fid, indexInCollection := f.index,
          postscriptName := f.postScriptName, fullName := f.fullName,
          styleName := f.styleName, weight := f.weight, width := f.width,
          slant := f.slant, isItalic := f.isItalic,
          isVariable := f.isVariable, activated := false,
          previewSupported := PREVIEWABLE_EXTENSIONS.contains ext,
          installSupported := INSTALLABLE_EXTENSIONS.contains ext } =
        scanFaceContent
          ((t.foldl (insertScanFace ext fid)
            (insertScanFace ext fid s f)).families) ext fid f := by
      simp [faceContent, scanFaceContent, hTkey]
    rw [List.map_cons, List.append_assoc, hcd]
    simp

theorem insertFaces_mem (ext : String) (fid : Nat) :
    ∀ (faces : List ScanFace) (s : Store) (fc : Face),
    fc ∈ (faces.foldl (insertScanFace ext fid) s).faces →
    fc ∈ s.faces ∨ (fc.fileId = fid ∧ fc.activated = false) := by
  intro faces
  induction faces with
  | nil =>
    intro s fc h
    exact Or.inl h
  | cons f t ih =>
    intro s fc h
    rw [List.foldl_cons] at h
    rcases ih _ fc h with h1 | h2
    · obtain ⟨fam, _, _, hfaces⟩ := insertScanFace_faces ext fid s f
      rw [hfaces] at h1
      rcases List.mem_append.mp h1 with h3 | h4
      · exact Or.inl h3
      · right
        have hfc := List.mem_singleton.mp h4
        rw [hfc]
        exact ⟨rfl, rfl⟩
    · exact Or.inr h2

theorem insertFaces_fontFiles (ext : String) (fid : Nat) :
    ∀ (faces : List ScanFace) (s : Store),
    (faces.foldl (insertScanFace ext fid) s).fontFiles = s.fontFiles ∧
    (faces.foldl (insertScanFace ext fid) s).clock = s.clock ∧
    (faces.foldl (insertScanFace ext fid) s).nextFileId = s.nextFileId := by
  intro faces
  induction faces with
  | nil =>
    intro s
    exact ⟨rfl, rfl, rfl⟩
  | cons f t ih =>
    intro s
    rw [List.foldl_cons]
    obtain ⟨h1, h2, h3⟩ := ih (insertScanFace ext fid s f)
    obtain ⟨g1, g2, g3⟩ := insertScanFace_fontFiles ext fid s f
    exact ⟨h1.trans g1, h2.trans g2, h3.trans g3⟩

/-- Behaviour of the file-row upsert at its path, away from it, and on the
ids of pre-existing rows. -/
theorem upsertFontFileRow_path_row (s : Store) (p : String) (sid : Nat)
    (ext : String) (sz mt now : Nat) (st : FileStatus) :
    (∃ g ∈ (upsertFontFileRow s p sid ext sz mt now st).fontFiles,
       g.path = p) ∧
    (∀ g ∈ (upsertFontFileRow s p sid ext sz mt now st).fontFiles,
       g.path = p → g.sourceId = sid ∧ g.ext = ext ∧ g.fileSize = sz ∧
         g.mtime = mt ∧ g.lastSeenAt = now ∧ g.status = st) ∧
    (∀ g ∈ (upsertFontFileRow s p sid ext sz mt now st).fontFiles,
       g.path ≠ p → g ∈ s.fontFiles) ∧
    (∀ g ∈ s.fontFiles, g.path ≠ p →
       g ∈ (upsertFontFileRow s p sid ext sz mt now st).fontFiles) ∧
    ((∃ f ∈ s.fontFiles, f.path = p) →
       ∀ g ∈ (upsertFontFileRow s p sid ext sz mt now st).fontFiles,
         g.path = p → ∃ g0 ∈ s.fontFiles, g0.path = p ∧ g.id = g0.id) := by
  unfold upsertFontFileRow
  by_cases hc : s.fontFiles.any (fun f => decide (f.path = p)) = true
  · rw [if_pos hc]
    obtain ⟨f, hf, hfp⟩ : ∃ f ∈ s.fontFiles, f.path = p := by simpa using hc
    refine ⟨⟨(fun f => if decide (f.path = p) then
        { f with sourceId := sid, ext := ext, fileSize := sz, mtime := mt,
                 lastSeenAt := now, status := st } else f) f,
      List.mem_map_of_mem _ hf, by simp [hfp]⟩, ?_, ?_, ?_, ?_⟩
    · intro g hg hgp
      obtain ⟨g0, hg0, hg0g⟩ := List.mem_map.mp hg
      by_cases h0 : g0.path = p
      · rw [if_pos (by simp [h0])] at hg0g
        rw [← hg0g]
        exact ⟨rfl, rfl, rfl, rfl, rfl, rfl⟩
      · rw [if_neg (by simp [h0])] at hg0g
        rw [← hg0g] at hgp
        exact absurd hgp h0
    · intro g hg hgp
      obtain ⟨g0, hg0, hg0g⟩ := List.mem_map.mp hg
      by_cases h0 : g0.path = p
      · rw [if_pos (by simp [h0])] at hg0g
        rw [← hg0g] at hgp
        exact absurd h0 hgp
      · rw [if_neg (by simp [h0])] at hg0g
        rw [← hg0g]
        exact hg0
    · intro g hg hgp
      refine List.mem_map.mpr ⟨g, hg, ?_⟩
      rw [if_neg (by simp [hgp])]
    · intro _ g hg hgp
      obtain ⟨g0, hg0, hg0g⟩ := List.mem_map.mp hg
      by_cases h0 : g0.path = p
      · rw [if_pos (by simp [h0])] at hg0g
        exact ⟨g0, hg0, h0, by rw [← hg0g]⟩
      · rw [if_neg (by simp [h0])] at hg0g
        rw [← hg0g] at hgp
        exact absurd hgp h0
  · rw [if_neg hc]
    have hno : ∀ f ∈ s.fontFiles, f.path ≠ p := by
      intro f hf
      have := (List.any_eq_true.not.mp hc)
      push_neg at this
      have h2 := this f hf
      simpa using h2
    refine ⟨⟨{ id := s.nextFileId, sourceId := sid, path := p, ext := ext,
               fileSize := sz, mtime := mt, lastSeenAt := now,
               status := st },
      List.mem_append.mpr (Or.inr (by simp)), rfl⟩, ?_, ?_, ?_, ?_⟩
    · intro g hg hgp
      rcases List.mem_append.mp hg with h1 | h2
      · exact absurd hgp (hno g h1)
      · have hge := List.mem_singleton.mp h2
        rw [hge]
        exact ⟨rfl, rfl, rfl, rfl, rfl, rfl⟩
    · intro g hg hgp
      rcases List.mem_append.mp hg with h1 | h2
      · exact h1
      · have hge := List.mem_singleton.mp h2
        rw [hge] at hgp
        exact absurd rfl hgp
    · intro g hg _
      exact List.mem_append.mpr (Or.inl hg)
    · rintro ⟨f, hf, hfp⟩
      exact absurd hfp (hno f hf)

theorem list_map_congr_mem {α β : Type} {l : List α} {f g : α → β}
    (h : ∀ a ∈ l, f a = g a) : l.map f = l.map g := by
  induction l with
  | nil => rfl
  | cons a t ih =>
    rw [List.map_cons, List.map_cons, h a (by simp),
      ih (fun b hb => h b (by simp [hb]))]

theorem filesWf_of_eq {t u : Store} (h1 : t.fontFiles = u.fontFiles)
    (h2 : t.nextFileId = u.nextFileId) (h : filesWf u) : filesWf t := by
  unfold filesWf at h ⊢
  rw [h1, h2]
  exact h

theorem upsertFontFileRow_filesWf (s : Store) (p : String) (sid : Nat)
    (ext : String) (sz mt now : Nat) (st : FileStatus) (hwf : filesWf s) :
    filesWf (upsertFontFileRow s p sid ext sz mt now st) := by
  obtain ⟨hids, hpaths, hbound⟩ := hwf
  unfold upsertFontFileRow
  by_cases hc : s.fontFiles.any (fun f => decide (f.path = p)) = true
  · rw [if_pos hc]
    have hidmap : (s.fontFiles.map (fun f => if decide (f.path = p) then
        { f with sourceId := sid, ext := ext, fileSize := sz, mtime := mt,
                 lastSeenAt := now, status := st } else f)).map
          (fun f => f.id) = s.fontFiles.map (fun f => f.id) := by
      rw [List.map_map]
      apply list_map_congr_mem
      intro a _
      by_cases h0 : a.path = p <;> simp [h0]
    have hpathmap : (s.fontFiles.map (fun f => if decide (f.path = p) then
        { f with sourceId := sid, ext := ext, fileSize := sz, mtime := mt,
                 lastSeenAt := now, status := st } else f)).map
          (fun f => f.path) = s.fontFiles.map (fun f => f.path) := by
      rw [List.map_map]
      apply list_map_congr_mem
      intro a _
      by_cases h0 : a.path = p <;> simp [h0]
    refine ⟨by rw [hidmap]; exact hids, by rw [hpathmap]; exact hpaths, ?_⟩
    intro f hf
    obtain ⟨g0, hg0, hg0f⟩ := List.mem_map.mp hf
    have : f.id = g0.id := by
      by_cases h0 : g0.path = p
      · rw [if_pos (by simp [h0])] at hg0f
        rw [← hg0f]
      · rw [if_neg (by simp [h0])] at hg0f
        rw [← hg0f]
    rw [this]
    exact hbound g0 hg0
  · rw [if_neg hc]
    have hno : ∀ f ∈ s.fontFiles, f.path ≠ p := by
      intro f hf
      have hall := (List.any_eq_true.not.mp hc)
      push_neg at hall
      simpa using hall f hf
    refine ⟨?_, ?_, ?_⟩
    · rw [List.map_append]
      simp only [List.map_cons, List.map_nil]
      rw [List.nodup_append]
      refine ⟨hids, by simp, ?_⟩
      intro x hx
      obtain ⟨f, hf, hfid⟩ := List.mem_map.mp hx
      have := hbound f hf
      simp only [List.mem_singleton]
      omega
    · rw [List.map_append]
      simp only [List.map_cons, List.map_nil]
      rw [List.nodup_append]
      refine ⟨hpaths, by simp, ?_⟩
      intro x hx
      obtain ⟨f, hf, hfp⟩ := List.mem_map.mp hx
      simp only [List.mem_singleton]
      rw [← hfp]
      exact hno f hf
    · intro f hf
      rcases List.mem_append.mp hf with h1 | h2
      · have := hbound f h1
        show f.id < s.nextFileId + 1
        omega
      · have hfe := List.mem_singleton.mp h2
        rw [hfe]
        show s.nextFileId < s.nextFileId + 1
        omega

theorem insertScanFace_faces_mono (ext : String) (fid : Nat) :
    ∀ (faces : List ScanFace) (s : Store) (fc : Face), fc ∈ s.faces →
    fc ∈ (faces.foldl (insertScanFace ext fid) s).faces := by
  intro faces
  induction faces with
  | nil =>
    intro s fc h
    exact h
  | cons f t ih =>
    intro s fc h
    rw [List.foldl_cons]
    apply ih
    obtain ⟨fam, _, _, hfaces⟩ := insertScanFace_faces ext fid s f
    rw [hfaces]
    exact List.mem_append.mpr (Or.inl h)

theorem upsertScanResult_filesWf (s : Store) (p : String) (sid : Nat)
    (ext : String) (sz mt : Nat) (res : ScanFileResult) (hwf : filesWf s) :
    filesWf (upsertScanResult s p sid ext sz mt res) := by
  have hwf1 : filesWf (upsertFontFileRow { s with clock := s.clock + 1 } p
      sid ext sz mt s.clock .ok) :=
    upsertFontFileRow_filesWf _ p sid ext sz mt s.clock .ok hwf
  unfold upsertScanResult
  simp only [tickNow]
  cases findFileByPath (upsertFontFileRow { s with clock := s.clock + 1 } p
      sid ext sz mt s.clock .ok) p with
  | none => exact hwf1
  | some fr =>
    obtain ⟨h1, _, h3⟩ := insertFaces_fontFiles ext fr.id res.faces
      { upsertFontFileRow { s with clock := s.clock + 1 } p sid ext sz mt
          s.clock .ok with
        faces := (upsertFontFileRow { s with clock := s.clock + 1 } p sid
            ext sz mt s.clock .ok).faces.filter
          (fun fc => !(decide (fc.fileId = fr.id))) }
    exact filesWf_of_eq h1 h3 hwf1

theorem upsertFontFileRow_faces (s : Store) (p : String) (sid : Nat)
    (ext : String) (sz mt now : Nat) (st : FileStatus) :
    (upsertFontFileRow s p sid ext sz mt now st).faces = s.faces := by
  unfold upsertFontFileRow
  split <;> rfl

theorem upsertFontFileRow_clock (s : Store) (p : String) (sid : Nat)
    (ext : String) (sz mt now : Nat) (st : FileStatus) :
    (upsertFontFileRow s p sid ext sz mt now st).clock = s.clock := by
  unfold upsertFontFileRow
  split <;> rfl

/-- Full characterization of one `upsertScanResult` run: the file row it
writes, the canonical contents of the file's faces (all inserted with the
activation flag at its default false), and the rows it leaves untouched. -/
theorem upsertScanResult_char (s : Store) (p : String) (sid : Nat)
    (ext : String) (sz mt : Nat) (res : ScanFileResult) :
    ∃ f1 ∈ (upsertScanResult s p sid ext sz mt res).fontFiles,
      f1.path = p ∧ f1.sourceId = sid ∧ f1.ext = ext ∧ f1.fileSize = sz ∧
      f1.mtime = mt ∧ f1.lastSeenAt = s.clock ∧ f1.status = FileStatus.ok ∧
      (((upsertScanResult s p sid ext sz mt res).faces.filter
          (fun fc => decide (fc.fileId = f1.id))).map faceContent =
        res.faces.map (scanFaceContent
          (upsertScanResult s p sid ext sz mt res).families ext f1.id)) ∧
      (∀ fc ∈ (upsertScanResult s p sid ext sz mt res).faces,
        fc.fileId = f1.id → fc.activated = false) ∧
      (∀ fc ∈ (upsertScanResult s p sid ext sz mt res).faces,
        fc.fileId ≠ f1.id → fc ∈ s.faces) ∧
      (∀ fc ∈ s.faces, fc.fileId ≠ f1.id →
        fc ∈ (upsertScanResult s p sid ext sz mt res).faces) ∧
      (∀ g ∈ (upsertScanResult s p sid ext sz mt res).fontFiles,
        g.path ≠ p → g ∈ s.fontFiles) ∧
      (∀ g ∈ s.fontFiles, g.path ≠ p →
        g ∈ (upsertScanResult s p sid ext sz mt res).fontFiles) ∧
      ((∃ f ∈ s.fontFiles, f.path = p) →
        ∃ g0 ∈ s.fontFiles, g0.path = p ∧ f1.id = g0.id) ∧
      (∀ f ∈ res.faces, (famIdByKey
        (upsertScanResult s p sid ext sz mt res).families
        (normalizeFamilyKey f.familyName)).isSome = true) ∧
      (∀ k : String, (famIdByKey s.families k).isSome = true →
        famIdByKey (upsertScanResult s p sid ext sz mt res).families k =
          famIdByKey s.families k) ∧
      (upsertScanResult s p sid ext sz mt res).clock = s.clock + 1 := by
  cases hfr : findFileByPath (upsertFontFileRow { s with
      clock := s.clock + 1 } p sid ext sz mt s.clock FileStatus.ok) p with
  | none =>
    exfalso
    obtain ⟨hex, _, _, _, _⟩ := upsertFontFileRow_path_row
      { s with clock := s.clock + 1 } p sid ext sz mt s.clock FileStatus.ok
    obtain ⟨g, hg, hgp⟩ := hex
    have hnone := List.find?_eq_none.mp hfr g hg
    exact hnone (by simp [hgp])
  | some fr =>
    have hfr_mem : fr ∈ (upsertFontFileRow { s with clock := s.clock + 1 }
        p sid ext sz mt s.clock FileStatus.ok).fontFiles :=
      List.mem_of_find?_eq_some hfr
    have hfr_path : fr.path = p := by simpa using List.find?_some hfr
    obtain ⟨hex, hat, haway, hback, hidp⟩ := upsertFontFileRow_path_row
      { s with clock := s.clock + 1 } p sid ext sz mt s.clock FileStatus.ok
    obtain ⟨hsrc, hext, hsz, hmt, hseen, hstatus⟩ := hat fr hfr_mem hfr_path
    have heval : upsertScanResult s p sid ext sz mt res =
        res.faces.foldl (insertScanFace ext fr.id)
          { upsertFontFileRow { s with clock := s.clock + 1 } p sid ext sz
              mt s.clock FileStatus.ok with
            faces := (upsertFontFileRow { s with clock := s.clock + 1 } p
                sid ext sz mt s.clock FileStatus.ok).faces.filter
              (fun fc => !(decide (fc.fileId = fr.id))) } := by
      simp only [upsertScanResult, tickNow, hfr]
    rw [heval]
    set S2 : Store := { upsertFontFileRow { s with clock := s.clock + 1 } p
        sid ext sz mt s.clock FileStatus.ok with
      faces := (upsertFontFileRow { s with clock := s.clock + 1 } p sid ext
          sz mt s.clock FileStatus.ok).faces.filter
        (fun fc => !(decide (fc.fileId = fr.id))) } with hS2
    obtain ⟨hTfiles, hTclock, _⟩ := insertFaces_fontFiles ext fr.id
      res.faces S2
    have hS2faces : S2.faces = (upsertFontFileRow { s with
        clock := s.clock + 1 } p sid ext sz mt s.clock
          FileStatus.ok).faces.filter
        (fun fc => !(decide (fc.fileId = fr.id))) := rfl
    have hS1faces : (upsertFontFileRow { s with clock := s.clock + 1 } p sid
        ext sz mt s.clock FileStatus.ok).faces = s.faces :=
      upsertFontFileRow_faces _ p sid ext sz mt s.clock FileStatus.ok
    refine ⟨fr, ?_, hfr_path, hsrc, hext, hsz, hmt, hseen, hstatus, ?_, ?_,
      ?_, ?_, ?_, ?_, ?_, ?_, ?_, ?_⟩
    · rw [hTfiles]
      exact hfr_mem
    · have hcontent := insertFaces_faces_content ext fr.id res.faces S2
      have e1 : ((res.faces.foldl (insertScanFace ext fr.id) S2).faces.filter
          (fun fc => decide (fc.fileId = fr.id))).map faceContent =
          ((res.faces.foldl (insertScanFace ext fr.id) S2).faces.map
            faceContent).filter (fun c => decide (c.2.1 = fr.id)) :=
        (list_map_filter_comm faceContent
          (fun c => decide (c.2.1 = fr.id)) _).symm
      rw [e1, hcontent, List.filter_append]
      have e2 : ((S2.faces.map faceContent).filter
          (fun c => decide (c.2.1 = fr.id))) = [] := by
        apply List.filter_eq_nil_iff.mpr
        intro c hc
        obtain ⟨fc, hfc, hfcc⟩ := List.mem_map.mp hc
        rw [hS2faces] at hfc
        have h2 := (List.mem_filter.mp hfc).2
        rw [← hfcc]
        simpa using h2
      have e3 : ((res.faces.map (scanFaceContent
          (res.faces.foldl (insertScanFace ext fr.id) S2).families ext
            fr.id)).filter (fun c => decide (c.2.1 = fr.id))) =
          res.faces.map (scanFaceContent
            (res.faces.foldl (insertScanFace ext fr.id) S2).families ext
            fr.id) := by
        apply List.filter_eq_self.mpr
        intro c hc
        obtain ⟨f, hf, hfc⟩ := List.mem_map.mp hc
        rw [← hfc]
        simp [scanFaceContent]
      rw [e2, e3, List.nil_append]
    · intro fc hfc hfid
      rcases insertFaces_mem ext fr.id res.faces S2 fc hfc with h1 | h2
      · rw [hS2faces] at h1
        have := (List.mem_filter.mp h1).2
        simp [hfid] at this
      · exact h2.2
    · intro fc hfc hfid
      rcases insertFaces_mem ext fr.id res.faces S2 fc hfc with h1 | h2
      · rw [hS2faces, hS1faces] at h1
        exact (List.mem_filter.mp h1).1
      · exact absurd h2.1 hfid
    · intro fc hfc hfid
      apply insertScanFace_faces_mono
      rw [hS2faces, hS1faces]
      exact List.mem_filter.mpr ⟨hfc, by simp [hfid]⟩
    · intro g hg hgp
      rw [hTfiles] at hg
      exact haway g hg hgp
    · intro g hg hgp
      rw [hTfiles]
      exact hback g hg hgp
    · intro hpe
      obtain ⟨g0, hg0, hg0p, hid⟩ := hidp hpe fr hfr_mem hfr_path
      exact ⟨g0, hg0, hg0p, hid⟩
    · intro f hf
      exact insertFaces_key_isSome ext fr.id res.faces S2 f hf
    · intro k hk
      have hS2fam : S2.families = s.families := by
        rw [hS2]
        show (upsertFontFileRow { s with clock := s.clock + 1 } p sid ext sz
          mt s.clock FileStatus.ok).families = s.families
        exact upsertFontFileRow_families _ p sid ext sz mt s.clock
          FileStatus.ok
      have hk2 : (famIdByKey S2.families k).isSome = true := by
        rw [hS2fam]
        exact hk
      rw [insertFaces_famIdByKey_preserved ext fr.id res.faces S2 k hk2,
        hS2fam]
    · rw [hTclock]
      show (upsertFontFileRow { s with clock := s.clock + 1 } p sid ext sz
        mt s.clock FileStatus.ok).clock = s.clock + 1
      rw [upsertFontFileRow_clock]

/-- Claim C3 (amended): rescanning a file with the identical extension,
size, mtime and face list reproduces the file's face set up to surrogate
ids — the face contents (every field except the auto-increment id) and the
family associations are identical after the second scan — leaves every
other file row and face row untouched, preserves every family row, and on
the file row itself advances only `last_seen_at`.  However the activation
flags of the file's faces are not preserved: every rescan (already the
first) resets them to false, because the face rows are deleted and
re-inserted with the schema default. -/
theorem upsertScanResult_idempotent (s : Store) (p : String) (sid : Nat)
    (ext : String) (sz mt : Nat) (res : ScanFileResult) (hwf : filesWf s) :
    ∃ f1 ∈ (upsertScanResult s p sid ext sz mt res).fontFiles, f1.path = p ∧
      (∀ g ∈ (upsertScanResult (upsertScanResult s p sid ext sz mt res) p
          sid ext sz mt res).fontFiles, g.path = p →
        g.id = f1.id ∧ g.sourceId = f1.sourceId ∧ g.ext = f1.ext ∧
          g.fileSize = f1.fileSize ∧ g.mtime = f1.mtime ∧
          g.status = f1.status ∧ f1.lastSeenAt < g.lastSeenAt) ∧
      (((upsertScanResult (upsertScanResult s p sid ext sz mt res) p sid ext
          sz mt res).faces.filter
            (fun fc => decide (fc.fileId = f1.id))).map faceContent =
        ((upsertScanResult s p sid ext sz mt res).faces.filter
          (fun fc => decide (fc.fileId = f1.id))).map faceContent) ∧
      (∀ fc ∈ (upsertScanResult s p sid ext sz mt res).faces,
        fc.fileId = f1.id → fc.activated = false) ∧
      (∀ fc ∈ (upsertScanResult (upsertScanResult s p sid ext sz mt res) p
          sid ext sz mt res).faces, fc.fileId = f1.id →
        fc.activated = false) ∧
      (∀ fc ∈ (upsertScanResult s p sid ext sz mt res).faces,
        fc.fileId ≠ f1.id →
        fc ∈ (upsertScanResult (upsertScanResult s p sid ext sz mt res) p
          sid ext sz mt res).faces) ∧
      (∀ g ∈ (upsertScanResult s p sid ext sz mt res).fontFiles,
        g.path ≠ p →
        g ∈ (upsertScanResult (upsertScanResult s p sid ext sz mt res) p sid
          ext sz mt res).fontFiles) ∧
      (∀ fam ∈ (upsertScanResult s p sid ext sz mt res).families,
        ∃ fam' ∈ (upsertScanResult (upsertScanResult s p sid ext sz mt res)
          p sid ext sz mt res).families,
          fam'.id = fam.id ∧ fam'.familyKey = fam.familyKey) := by
  have hwf1 := upsertScanResult_filesWf s p sid ext sz mt res hwf
  have hwf2 := upsertScanResult_filesWf (upsertScanResult s p sid ext sz mt
    res) p sid ext sz mt res hwf1
  obtain ⟨f1, hf1mem, hf1p, hf1src, hf1ext, hf1sz, hf1mt, hf1seen, hf1st,
    hcont1, hact1, _, hoth1b, _, _, _, hkeys1, _, hclock1⟩ :=
    upsertScanResult_char s p sid ext sz mt res
  obtain ⟨f2, hf2mem, hf2p, hf2src, hf2ext, hf2sz, hf2mt, hf2seen, hf2st,
    hcont2, hact2, _, hoth2b, _, hfile2b, hidp2, _, hpres2, _⟩ :=
    upsertScanResult_char (upsertScanResult s p sid ext sz mt res) p sid
      ext sz mt res
  have hfid : f2.id = f1.id := by
    obtain ⟨g0, hg0, hg0p, hid⟩ := hidp2 ⟨f1, hf1mem, hf1p⟩
    have hg0f1 : g0 = f1 := List.inj_on_of_nodup_map hwf1.2.1 hg0 hf1mem
      (by rw [hg0p, hf1p])
    rw [hid, hg0f1]
  rw [hfid] at hcont2
  refine ⟨f1, hf1mem, hf1p, ?_, ?_, ?_, ?_, ?_, ?_, ?_⟩
  · intro g hg hgp
    have hgf2 : g = f2 := List.inj_on_of_nodup_map hwf2.2.1 hg hf2mem
      (by rw [hgp, hf2p])
    subst hgf2
    refine ⟨hfid, ?_, ?_, ?_, ?_, ?_, ?_⟩
    · rw [hf2src, hf1src]
    · rw [hf2ext, hf1ext]
    · rw [hf2sz, hf1sz]
    · rw [hf2mt, hf1mt]
    · rw [hf2st, hf1st]
    · rw [hf1seen, hf2seen, hclock1]
      omega
  · have hmapeq : res.faces.map (scanFaceContent
        (upsertScanResult (upsertScanResult s p sid ext sz mt res) p sid ext
          sz mt res).families ext f1.id) =
        res.faces.map (scanFaceContent
          (upsertScanResult s p sid ext sz mt res).families ext f1.id) := by
      apply list_map_congr_mem
      intro f hf
      have hk1 := hkeys1 f hf
      have hkeq := hpres2 (normalizeFamilyKey f.familyName) hk1
      simp [scanFaceContent, hkeq]
    exact hcont2.trans (hmapeq.trans hcont1.symm)
  · exact hact1
  · intro fc hfc hfi
    exact hact2 fc hfc (by rw [hfi, hfid])
  · intro fc hfc hfi
    apply hoth2b fc hfc
    rw [hfid]
    exact hfi
  · intro g hg hgp
    exact hfile2b g hg hgp
  · exact upsertScanResult_famPreserved (upsertScanResult s p sid ext sz mt
      res) p sid ext sz mt res

/-- Claim C3 witness: the amended theorem applied to `activatedStore` and
the rescan of `/s/A.ttf` with its previous scan data. -/
theorem upsertScanResult_idempotent_witness :
    ∃ f1 ∈ (upsertScanResult activatedStore "/s/A.ttf" 1 ".ttf" 10 5
        alphaScan).fontFiles, f1.path = "/s/A.ttf" ∧
      (∀ g ∈ (upsertScanResult (upsertScanResult activatedStore "/s/A.ttf" 1
          ".ttf" 10 5 alphaScan) "/s/A.ttf" 1 ".ttf" 10 5
            alphaScan).fontFiles, g.path = "/s/A.ttf" →
        g.id = f1.id ∧ g.sourceId = f1.sourceId ∧ g.ext = f1.ext ∧
          g.fileSize = f1.fileSize ∧ g.mtime = f1.mtime ∧
          g.status = f1.status ∧ f1.lastSeenAt < g.lastSeenAt) ∧
      (((upsertScanResult (upsertScanResult activatedStore "/s/A.ttf" 1
          ".ttf" 10 5 alphaScan) "/s/A.ttf" 1 ".ttf" 10 5
            alphaScan).faces.filter
              (fun fc => decide (fc.fileId = f1.id))).map faceContent =
        ((upsertScanResult activatedStore "/s/A.ttf" 1 ".ttf" 10 5
          alphaScan).faces.filter
            (fun fc => decide (fc.fileId = f1.id))).map faceContent) ∧
      (∀ fc ∈ (upsertScanResult activatedStore "/s/A.ttf" 1 ".ttf" 10 5
          alphaScan).faces, fc.fileId = f1.id → fc.activated = false) ∧
      (∀ fc ∈ (upsertScanResult (upsertScanResult activatedStore "/s/A.ttf"
          1 ".ttf" 10 5 alphaScan) "/s/A.ttf" 1 ".ttf" 10 5
            alphaScan).faces, fc.fileId = f1.id → fc.activated = false) ∧
      (∀ fc ∈ (upsertScanResult activatedStore "/s/A.ttf" 1 ".ttf" 10 5
          alphaScan).faces, fc.fileId ≠ f1.id →
        fc ∈ (upsertScanResult (upsertScanResult activatedStore "/s/A.ttf" 1
          ".ttf" 10 5 alphaScan) "/s/A.ttf" 1 ".ttf" 10 5
            alphaScan).faces) ∧
      (∀ g ∈ (upsertScanResult activatedStore "/s/A.ttf" 1 ".ttf" 10 5
          alphaScan).fontFiles, g.path ≠ "/s/A.ttf" →
        g ∈ (upsertScanResult (upsertScanResult activatedStore "/s/A.ttf" 1
          ".ttf" 10 5 alphaScan) "/s/A.ttf" 1 ".ttf" 10 5
            alphaScan).fontFiles) ∧
      (∀ fam ∈ (upsertScanResult activatedStore "/s/A.ttf" 1 ".ttf" 10 5
          alphaScan).families,
        ∃ fam' ∈ (upsertScanResult (upsertScanResult activatedStore
          "/s/A.ttf" 1 ".ttf" 10 5 alphaScan) "/s/A.ttf" 1 ".ttf" 10 5
            alphaScan).families,
          fam'.id = fam.id ∧ fam'.familyKey = fam.familyKey) :=
  upsertScanResult_idempotent activatedStore "/s/A.ttf" 1 ".ttf" 10 5
    alphaScan (by unfold filesWf; decide)

/-! ## Claims C6 and C8 -/

/-- The facet tables agree with one schema column: a unique column row with
its key, name and type, whose values are exactly the column's normalized
values. -/
def SyncedCol (t : Store) (col : FacetSchemaColumn) : Prop :=
  ∃ row ∈ t.facetColumns, row.key = col.key ∧
    row.displayName = col.displayName ∧ row.type = col.type ∧
    (∀ v ∈ t.facetValues, v.columnId = row.id →
      ∃ nv ∈ normalizedValues col, v.valueKey = nv.1 ∧ v.displayName = nv.2) ∧
    (∀ nv ∈ normalizedValues col, ∃ v ∈ t.facetValues,
      v.columnId = row.id ∧ v.valueKey = nv.1 ∧ v.displayName = nv.2)

theorem upsertFacetValue_untouched (w : Store) (cid : Nat)
    (q : String × String) :
    (upsertFacetValue w cid q).facetColumns = w.facetColumns ∧
    (upsertFacetValue w cid q).familyFacetValues = w.familyFacetValues ∧
    (upsertFacetValue w cid q).nextColumnId = w.nextColumnId := by
  unfold upsertFacetValue
  split <;> exact ⟨rfl, rfl, rfl⟩

theorem upsertFacetValue_present (w : Store) (cid : Nat)
    (q : String × String) :
    ∃ u ∈ (upsertFacetValue w cid q).facetValues,
      u.columnId = cid ∧ u.valueKey = q.1 ∧ u.displayName = q.2 := by
  unfold upsertFacetValue
  by_cases hc : w.facetValues.any (fun v => decide (v.columnId = cid) &&
      decide (v.valueKey = q.1)) = true
  · rw [if_pos hc]
    obtain ⟨v, hv, hvp⟩ := List.any_eq_true.mp hc
    have hvc : v.columnId = cid ∧ v.valueKey = q.1 := by simpa using hvp
    refine ⟨(fun v => if decide (v.columnId = cid) &&
        decide (v.valueKey = q.1) then { v with displayName := q.2 }
        else v) v, List.mem_map_of_mem _ hv, ?_⟩
    simp [hvc.1, hvc.2]
  · rw [if_neg hc]
    exact ⟨{ id := w.nextValueId, columnId := cid, valueKey := q.1,
             displayName := q.2 },
      List.mem_append.mpr (Or.inr (by simp)), rfl, rfl, rfl⟩

theorem upsertFacetValue_display (w : Store) (cid : Nat)
    (q : String × String) :
    ∀ u ∈ (upsertFacetValue w cid q).facetValues,
      u.columnId = cid → u.valueKey = q.1 → u.displayName = q.2 := by
  unfold upsertFacetValue
  by_cases hc : w.facetValues.any (fun v => decide (v.columnId = cid) &&
      decide (v.valueKey = q.1)) = true
  · rw [if_pos hc]
    intro u hu hcid hkey
    obtain ⟨u0, hu0, hu0u⟩ := List.mem_map.mp hu
    by_cases h0 : u0.columnId = cid ∧ u0.valueKey = q.1
    · rw [if_pos (by simp [h0.1, h0.2])] at hu0u
      rw [← hu0u]
    · rw [if_neg (by simpa using h0)] at hu0u
      subst hu0u
      exact absurd ⟨hcid, hkey⟩ h0
  · rw [if_neg hc]
    intro u hu hcid hkey
    rcases List.mem_append.mp hu with h1 | h2
    · exfalso
      have hall := List.any_eq_true.not.mp hc
      push_neg at hall
      have := hall u h1
      simp [hcid, hkey] at this
    · have hue := List.mem_singleton.mp h2
      rw [hue]

theorem upsertFacetValue_old_of_notmatch (w : Store) (cid : Nat)
    (q : String × String) :
    ∀ u ∈ (upsertFacetValue w cid q).facetValues,
      ¬(u.columnId = cid ∧ u.valueKey = q.1) → u ∈ w.facetValues := by
  unfold upsertFacetValue
  by_cases hc : w.facetValues.any (fun v => decide (v.columnId = cid) &&
      decide (v.valueKey = q.1)) = true
  · rw [if_pos hc]
    intro u hu hnot
    obtain ⟨u0, hu0, hu0u⟩ := List.mem_map.mp hu
    by_cases h0 : u0.columnId = cid ∧ u0.valueKey = q.1
    · rw [if_pos (by simp [h0.1, h0.2])] at hu0u
      exfalso
      apply hnot
      rw [← hu0u]
      exact ⟨h0.1, h0.2⟩
    · rw [if_neg (by simpa using h0)] at hu0u
      rw [← hu0u]
      exact hu0
  · rw [if_neg hc]
    intro u hu hnot
    rcases List.mem_append.mp hu with h1 | h2
    · exact h1
    · exfalso
      have hue := List.mem_singleton.mp h2
      apply hnot
      rw [hue]
      exact ⟨rfl, rfl⟩

theorem upsertFacetValue_keep_of_notmatch (w : Store) (cid : Nat)
    (q : String × String) :
    ∀ u ∈ w.facetValues, ¬(u.columnId = cid ∧ u.valueKey = q.1) →
      u ∈ (upsertFacetValue w cid q).facetValues := by
  unfold upsertFacetValue
  by_cases hc : w.facetValues.any (fun v => decide (v.columnId = cid) &&
      decide (v.valueKey = q.1)) = true
  · rw [if_pos hc]
    intro u hu hnot
    refine List.mem_map.mpr ⟨u, hu, ?_⟩
    rw [if_neg (by simpa using hnot)]
  · rw [if_neg hc]
    intro u hu _
    exact List.mem_append.mpr (Or.inl hu)

theorem upsertFacetValue_key_origin (w : Store) (cid : Nat)
    (q : String × String) :
    ∀ u ∈ (upsertFacetValue w cid q).facetValues,
      (u.columnId = cid ∧ u.valueKey = q.1) ∨
      ∃ u0 ∈ w.facetValues, u.columnId = u0.columnId ∧
        u.valueKey = u0.valueKey := by
  unfold upsertFacetValue
  by_cases hc : w.facetValues.any (fun v => decide (v.columnId = cid) &&
      decide (v.valueKey = q.1)) = true
  · rw [if_pos hc]
    intro u hu
    obtain ⟨u0, hu0, hu0u⟩ := List.mem_map.mp hu
    right
    refine ⟨u0, hu0, ?_⟩
    by_cases h0 : u0.columnId = cid ∧ u0.valueKey = q.1
    · rw [if_pos (by simp [h0.1, h0.2])] at hu0u
      rw [← hu0u]
      exact ⟨rfl, rfl⟩
    · rw [if_neg (by simpa using h0)] at hu0u
      rw [← hu0u]
      exact ⟨rfl, rfl⟩
  · rw [if_neg hc]
    intro u hu
    rcases List.mem_append.mp hu with h1 | h2
    · exact Or.inr ⟨u, h1, rfl, rfl⟩
    · left
      have hue := List.mem_singleton.mp h2
      rw [hue]
      exact ⟨rfl, rfl⟩

theorem upsertFacetValue_facetWf (w : Store) (cid : Nat)
    (q : String × String) (hwf : facetWf w)
    (hcol : ∃ c ∈ w.facetColumns, cid = c.id) :
    facetWf (upsertFacetValue w cid q) := by
  obtain ⟨hcids, hckeys, hcbound, hvids, hvpairs, hvbound, hvint, haint⟩ :=
    hwf
  unfold upsertFacetValue
  by_cases hc : w.facetValues.any (fun v => decide (v.columnId = cid) &&
      decide (v.valueKey = q.1)) = true
  · rw [if_pos hc]
    have hidmap : (w.facetValues.map (fun v =>
        if decide (v.columnId = cid) && decide (v.valueKey = q.1) then
          { v with displayName := q.2 } else v)).map (fun v => v.id) =
        w.facetValues.map (fun v => v.id) := by
      rw [List.map_map]
      apply list_map_congr_mem
      intro a _
      by_cases h0 : (decide (a.columnId = cid) &&
          decide (a.valueKey = q.1)) = true
      · simp only [Function.comp_apply]
        rw [if_pos h0]
      · simp only [Function.comp_apply]
        rw [if_neg h0]
    have hpairmap : (w.facetValues.map (fun v =>
        if decide (v.columnId = cid) && decide (v.valueKey = q.1) then
          { v with displayName := q.2 } else v)).map
          (fun v => (v.columnId, v.valueKey)) =
        w.facetValues.map (fun v => (v.columnId, v.valueKey)) := by
      rw [List.map_map]
      apply list_map_congr_mem
      intro a _
      by_cases h0 : (decide (a.columnId = cid) &&
          decide (a.valueKey = q.1)) = true
      · simp only [Function.comp_apply]
        rw [if_pos h0]
      · simp only [Function.comp_apply]
        rw [if_neg h0]
    refine ⟨hcids, hckeys, hcbound, ?_, ?_, ?_, ?_, ?_⟩
    · rw [hidmap]
      exact hvids
    · rw [hpairmap]
      exact hvpairs
    · intro v hv
      obtain ⟨v0, hv0, hv0v⟩ := List.mem_map.mp hv
      have : v.id = v0.id := by
        by_cases h0 : (decide (v0.columnId = cid) &&
            decide (v0.valueKey = q.1)) = true
        · rw [if_pos h0] at hv0v
          rw [← hv0v]
        · rw [if_neg (by simp [h0])] at hv0v
          rw [← hv0v]
      rw [this]
      exact hvbound v0 hv0
    · intro v hv
      obtain ⟨v0, hv0, hv0v⟩ := List.mem_map.mp hv
      have : v.columnId = v0.columnId := by
        by_cases h0 : (decide (v0.columnId = cid) &&
            decide (v0.valueKey = q.1)) = true
        · rw [if_pos h0] at hv0v
          rw [← hv0v]
        · rw [if_neg (by simp [h0])] at hv0v
          rw [← hv0v]
      rw [this]
      exact hvint v0 hv0
    · intro a ha
      obtain ⟨v0, hv0, hv0a⟩ := haint a ha
      refine ⟨(fun v => if decide (v.columnId = cid) &&
          decide (v.valueKey = q.1) then { v with displayName := q.2 }
          else v) v0, List.mem_map_of_mem _ hv0, ?_⟩
      show a.valueId = (if (decide (v0.columnId = cid) &&
          decide (v0.valueKey = q.1)) = true then
          { v0 with displayName := q.2 } else v0).id
      by_cases h0 : (decide (v0.columnId = cid) &&
          decide (v0.valueKey = q.1)) = true
      · rw [if_pos h0]
        exact hv0a
      · rw [if_neg h0]
        exact hv0a
  · rw [if_neg hc]
    have hno : ∀ v ∈ w.facetValues,
        ¬(v.columnId = cid ∧ v.valueKey = q.1) := by
      intro v hv
      have hall := List.any_eq_true.not.mp hc
      push_neg at hall
      have := hall v hv
      simpa using this
    refine ⟨hcids, hckeys, hcbound, ?_, ?_, ?_, ?_, ?_⟩
    · rw [List.map_append]
      simp only [List.map_cons, List.map_nil]
      rw [List.nodup_append]
      refine ⟨hvids, by simp, ?_⟩
      intro x hx
      obtain ⟨v, hv, hvid⟩ := List.mem_map.mp hx
      have := hvbound v hv
      simp only [List.mem_singleton]
      omega
    · rw [List.map_append]
      simp only [List.map_cons, List.map_nil]
      rw [List.nodup_append]
      refine ⟨hvpairs, by simp, ?_⟩
      intro x hx
      obtain ⟨v, hv, hvp⟩ := List.mem_map.mp hx
      simp only [List.mem_singleton]
      intro hx2
      rw [hx2] at hvp
      have : v.columnId = cid ∧ v.valueKey = q.1 := by
        have h1 := congrArg Prod.fst hvp
        have h2 := congrArg Prod.snd hvp
        exact ⟨h1, h2⟩
      exact hno v hv this
    · intro v hv
      rcases List.mem_append.mp hv with h1 | h2
      · have := hvbound v h1
        show v.id < w.nextValueId + 1
        omega
      · have hve := List.mem_singleton.mp h2
        rw [hve]
        show w.nextValueId < w.nextValueId + 1
        omega
    · intro v hv
      rcases List.mem_append.mp hv with h1 | h2
      · exact hvint v h1
      · obtain ⟨c, hcm, hcid⟩ := hcol
        have hve := List.mem_singleton.mp h2
        rw [hve]
        exact ⟨c, hcm, hcid⟩
    · intro a ha
      obtain ⟨v0, hv0, hv0a⟩ := haint a ha
      exact ⟨v0, List.mem_append.mpr (Or.inl hv0), hv0a⟩

theorem upsertFacetColumn_untouched (w : Store) (col : FacetSchemaColumn) :
    (upsertFacetColumn w col).facetValues = w.facetValues ∧
    (upsertFacetColumn w col).familyFacetValues = w.familyFacetValues ∧
    (upsertFacetColumn w col).nextValueId = w.nextValueId := by
  unfold upsertFacetColumn
  split <;> exact ⟨rfl, rfl, rfl⟩

theorem upsertFacetColumn_exists (w : Store) (col : FacetSchemaColumn) :
    ∃ c ∈ (upsertFacetColumn w col).facetColumns, c.key = col.key ∧
      c.displayName = col.displayName ∧ c.type = col.type := by
  unfold upsertFacetColumn
  by_cases hc : w.facetColumns.any (fun c => decide (c.key = col.key)) = true
  · rw [if_pos hc]
    obtain ⟨c0, hc0, hc0p⟩ := List.any_eq_true.mp hc
    have hk : c0.key = col.key := by simpa using hc0p
    refine ⟨(fun c => if decide (c.key = col.key) then
        { c with displayName := col.displayName, type := col.type }
        else c) c0, List.mem_map_of_mem _ hc0, ?_⟩
    simp [hk]
  · rw [if_neg hc]
    exact ⟨{ id := w.nextColumnId, key := col.key,
             displayName := col.displayName, type := col.type },
      List.mem_append.mpr (Or.inr (by simp)), rfl, rfl, rfl⟩

theorem upsertFacetColumn_other (w : Store) (col : FacetSchemaColumn) :
    ∀ c : FacetColumnRow, c.key ≠ col.key →
      (c ∈ (upsertFacetColumn w col).facetColumns ↔ c ∈ w.facetColumns) := by
  intro c hne
  unfold upsertFacetColumn
  by_cases hc : w.facetColumns.any (fun c => decide (c.key = col.key)) = true
  · rw [if_pos hc]
    constructor
    · intro h
      obtain ⟨c0, hc0, hc0c⟩ := List.mem_map.mp h
      by_cases h0 : c0.key = col.key
      · rw [if_pos (by simp [h0])] at hc0c
        exfalso
        apply hne
        rw [← hc0c]
        exact h0
      · rw [if_neg (by simpa using h0)] at hc0c
        rw [← hc0c]
        exact hc0
    · intro h
      refine List.mem_map.mpr ⟨c, h, ?_⟩
      rw [if_neg (by simpa using hne)]
  · rw [if_neg hc]
    constructor
    · intro h
      rcases List.mem_append.mp h with h1 | h2
      · exact h1
      · exfalso
        apply hne
        have := List.mem_singleton.mp h2
        rw [this]
    · intro h
      exact List.mem_append.mpr (Or.inl h)

theorem upsertFacetColumn_key_origin (w : Store) (col : FacetSchemaColumn) :
    ∀ c ∈ (upsertFacetColumn w col).facetColumns,
      c.key = col.key ∨ c ∈ w.facetColumns := by
  intro c hmem
  unfold upsertFacetColumn at hmem
  by_cases hc : w.facetColumns.any (fun c => decide (c.key = col.key)) = true
  · rw [if_pos hc] at hmem
    obtain ⟨c0, hc0, hc0c⟩ := List.mem_map.mp hmem
    by_cases h0 : c0.key = col.key
    · left
      rw [if_pos (by simp [h0])] at hc0c
      rw [← hc0c]
      exact h0
    · right
      rw [if_neg (by simpa using h0)] at hc0c
      rw [← hc0c]
      exact hc0
  · rw [if_neg hc] at hmem
    rcases List.mem_append.mp hmem with h1 | h2
    · exact Or.inr h1
    · left
      have := List.mem_singleton.mp h2
      rw [this]

theorem upsertFacetColumn_facetWf (w : Store) (col : FacetSchemaColumn)
    (hwf : facetWf w) : facetWf (upsertFacetColumn w col) := by
  obtain ⟨hcids, hckeys, hcbound, hvids, hvpairs, hvbound, hvint, haint⟩ :=
    hwf
  unfold upsertFacetColumn
  by_cases hc : w.facetColumns.any (fun c => decide (c.key = col.key)) = true
  · rw [if_pos hc]
    have hidmap : (w.facetColumns.map (fun c =>
        if decide (c.key = col.key) then
          { c with displayName := col.displayName, type := col.type }
        else c)).map (fun c => c.id) =
        w.facetColumns.map (fun c => c.id) := by
      rw [List.map_map]
      apply list_map_congr_mem
      intro a _
      by_cases h0 : (decide (a.key = col.key)) = true
      · simp only [Function.comp_apply]
        rw [if_pos h0]
      · simp only [Function.comp_apply]
        rw [if_neg h0]
    have hkeymap : (w.facetColumns.map (fun c =>
        if decide (c.key = col.key) then
          { c with displayName := col.displayName, type := col.type }
        else c)).map (fun c => c.key) =
        w.facetColumns.map (fun c => c.key) := by
      rw [List.map_map]
      apply list_map_congr_mem
      intro a _
      by_cases h0 : (decide (a.key = col.key)) = true
      · simp only [Function.comp_apply]
        rw [if_pos h0]
      · simp only [Function.comp_apply]
        rw [if_neg h0]
    refine ⟨?_, ?_, ?_, hvids, hvpairs, hvbound, ?_, haint⟩
    · rw [hidmap]
      exact hcids
    · rw [hkeymap]
      exact hckeys
    · intro c hcm
      obtain ⟨c0, hc0, hc0c⟩ := List.mem_map.mp hcm
      have : c.id = c0.id := by
        by_cases h0 : (decide (c0.key = col.key)) = true
        · rw [if_pos h0] at hc0c
          rw [← hc0c]
        · rw [if_neg h0] at hc0c
          rw [← hc0c]
      rw [this]
      exact hcbound c0 hc0
    · intro v hv
      obtain ⟨c0, hc0, hc0v⟩ := hvint v hv
      refine ⟨(fun c => if decide (c.key = col.key) then
          { c with displayName := col.displayName, type := col.type }
          else c) c0, List.mem_map_of_mem _ hc0, ?_⟩
      show v.columnId = (if (decide (c0.key = col.key)) = true then
          { c0 with displayName := col.displayName, type := col.type }
          else c0).id
      by_cases h0 : (decide (c0.key = col.key)) = true
      · rw [if_pos h0]
        exact hc0v
      · rw [if_neg h0]
        exact hc0v
  · rw [if_neg hc]
    have hno : ∀ c ∈ w.facetColumns, ¬(c.key = col.key) := by
      intro c hcm
      have hall := List.any_eq_true.not.mp hc
      push_neg at hall
      have := hall c hcm
      simpa using this
    refine ⟨?_, ?_, ?_, hvids, hvpairs, hvbound, ?_, haint⟩
    · rw [List.map_append]
      simp only [List.map_cons, List.map_nil]
      rw [List.nodup_append]
      refine ⟨hcids, by simp, ?_⟩
      intro x hx
      obtain ⟨c, hcm, hcid⟩ := List.mem_map.mp hx
      have := hcbound c hcm
      simp only [List.mem_singleton]
      omega
    · rw [List.map_append]
      simp only [List.map_cons, List.map_nil]
      rw [List.nodup_append]
      refine ⟨hckeys, by simp, ?_⟩
      intro x hx
      obtain ⟨c, hcm, hck⟩ := List.mem_map.mp hx
      simp only [List.mem_singleton]
      intro hx2
      apply hno c hcm
      rw [hck]
      exact hx2
    · intro c hcm
      rcases List.mem_append.mp hcm with h1 | h2
      · have := hcbound c h1
        show c.id < w.nextColumnId + 1
        omega
      · have hce := List.mem_singleton.mp h2
        rw [hce]
        show w.nextColumnId < w.nextColumnId + 1
        omega
    · intro v hv
      obtain ⟨c0, hc0, hc0v⟩ := hvint v hv
      exact ⟨c0, List.mem_append.mpr (Or.inl hc0), hc0v⟩

theorem deleteFacetValuesByIds_untouched (w : Store) (ids : List Nat) :
    (deleteFacetValuesByIds w ids).facetColumns = w.facetColumns ∧
    (deleteFacetValuesByIds w ids).nextColumnId = w.nextColumnId ∧
    (deleteFacetValuesByIds w ids).nextValueId = w.nextValueId :=
  ⟨rfl, rfl, rfl⟩

theorem deleteFacetValuesByIds_values_mem (w : Store) (ids : List Nat)
    (v : FacetValueRow) :
    v ∈ (deleteFacetValuesByIds w ids).facetValues ↔
      v ∈ w.facetValues ∧ ¬(v.id ∈ ids) := by
  simp [deleteFacetValuesByIds, List.mem_filter]

theorem deleteFacetValuesByIds_assoc_mem (w : Store) (ids : List Nat)
    (a : FamilyFacetValue) :
    a ∈ (deleteFacetValuesByIds w ids).familyFacetValues ↔
      a ∈ w.familyFacetValues ∧ ¬(a.valueId ∈ ids) := by
  simp [deleteFacetValuesByIds, List.mem_filter]

theorem deleteFacetValuesByIds_facetWf (w : Store) (ids : List Nat)
    (hwf : facetWf w) : facetWf (deleteFacetValuesByIds w ids) := by
  obtain ⟨hcids, hckeys, hcbound, hvids, hvpairs, hvbound, hvint, haint⟩ :=
    hwf
  refine ⟨hcids, hckeys, hcbound, ?_, ?_, ?_, ?_, ?_⟩
  · exact hvids.sublist ((List.filter_sublist _).map _)
  · exact hvpairs.sublist ((List.filter_sublist _).map _)
  · intro v hv
    exact hvbound v ((deleteFacetValuesByIds_values_mem w ids v).mp hv).1
  · intro v hv
    exact hvint v ((deleteFacetValuesByIds_values_mem w ids v).mp hv).1
  · intro a ha
    obtain ⟨hao, hani⟩ := (deleteFacetValuesByIds_assoc_mem w ids a).mp ha
    obtain ⟨v, hv, hva⟩ := haint a hao
    refine ⟨v, (deleteFacetValuesByIds_values_mem w ids v).mpr ⟨hv, ?_⟩, hva⟩
    rw [← hva]
    exact hani

/-- The value-insertion loop of `syncFacetColumn`, abstracted over the
remaining values. -/
def foldVals (rid : Nat) (todo : List (String × String)) (st : Store) :
    Store :=
  todo.foldl (fun w q => upsertFacetValue w rid q) st

theorem foldVals_invariant (s2 : Store) (row : FacetColumnRow)
    (keep : List String) (done todo : List (String × String))
    (hkeys : ((done ++ todo).map (fun q => q.1)).Nodup)
    (hkeep : ∀ q ∈ done ++ todo, q.1 ∈ keep)
    (st : Store)
    (h1 : st.facetColumns = s2.facetColumns)
    (h2 : st.familyFacetValues = s2.familyFacetValues)
    (h3 : st.nextColumnId = s2.nextColumnId)
    (hrow : row ∈ s2.facetColumns)
    (h4 : facetWf st)
    (h5 : ∀ v ∈ st.facetValues, v.columnId = row.id → v.valueKey ∈ keep)
    (h6 : ∀ q ∈ done, ∃ v ∈ st.facetValues, v.columnId = row.id ∧
      v.valueKey = q.1 ∧ v.displayName = q.2)
    (h7 : ∀ v ∈ st.facetValues, v.columnId = row.id → ∀ q ∈ done,
      v.valueKey = q.1 → v.displayName = q.2)
    (h8 : ∀ v : FacetValueRow, v.columnId ≠ row.id →
      (v ∈ st.facetValues ↔ v ∈ s2.facetValues)) :
    (foldVals row.id todo st).facetColumns = s2.facetColumns ∧
    (foldVals row.id todo st).familyFacetValues = s2.familyFacetValues ∧
    (foldVals row.id todo st).nextColumnId = s2.nextColumnId ∧
    facetWf (foldVals row.id todo st) ∧
    (∀ v ∈ (foldVals row.id todo st).facetValues, v.columnId = row.id →
      v.valueKey ∈ keep) ∧
    (∀ q ∈ done ++ todo, ∃ v ∈ (foldVals row.id todo st).facetValues,
      v.columnId = row.id ∧ v.valueKey = q.1 ∧ v.displayName = q.2) ∧
    (∀ v ∈ (foldVals row.id todo st).facetValues, v.columnId = row.id →
      ∀ q ∈ done ++ todo, v.valueKey = q.1 → v.displayName = q.2) ∧
    (∀ v : FacetValueRow, v.columnId ≠ row.id →
      (v ∈ (foldVals row.id todo st).facetValues ↔ v ∈ s2.facetValues)) := by
  induction todo generalizing done st with
  | nil =>
    simp only [List.append_nil] at hkeys hkeep
    exact ⟨h1, h2, h3, h4, h5, by simpa using h6, by simpa using h7, h8⟩
  | cons q rest ih =>
    have hqkeep : q.1 ∈ keep := hkeep q (by simp)
    have hqrest : ∀ p ∈ rest, p.1 ≠ q.1 := by
      intro p hp heq
      have : ((done ++ q :: rest).map (fun r => r.1)).Nodup := hkeys
      rw [List.map_append] at this
      have hright : ((q :: rest).map (fun r => r.1)).Nodup :=
        (List.nodup_append.mp this).2.1
      simp only [List.map_cons, List.nodup_cons] at hright
      exact hright.1 (heq ▸ List.mem_map_of_mem _ hp)
    have hqdone : ∀ p ∈ done, p.1 ≠ q.1 := by
      intro p hp heq
      have : ((done ++ q :: rest).map (fun r => r.1)).Nodup := hkeys
      rw [List.map_append] at this
      have hdisj := (List.nodup_append.mp this).2.2
      exact hdisj (List.mem_map_of_mem _ hp) (by simp [heq])
    have hstep : foldVals row.id (q :: rest) st =
        foldVals row.id rest (upsertFacetValue st row.id q) := rfl
    rw [hstep]
    have hkeys' : ((( done ++ [q]) ++ rest).map (fun r => r.1)).Nodup := by
      have : (done ++ [q]) ++ rest = done ++ q :: rest := by simp
      rw [this]
      exact hkeys
    have hkeep' : ∀ p ∈ (done ++ [q]) ++ rest, p.1 ∈ keep := by
      intro p hp
      apply hkeep
      have : (done ++ [q]) ++ rest = done ++ q :: rest := by simp
      rw [← this]
      exact hp
    have hu := upsertFacetValue_untouched st row.id q
    have h4' : facetWf (upsertFacetValue st row.id q) := by
      apply upsertFacetValue_facetWf st row.id q h4
      exact ⟨row, h1 ▸ hrow, rfl⟩
    have h5' : ∀ v ∈ (upsertFacetValue st row.id q).facetValues,
        v.columnId = row.id → v.valueKey ∈ keep := by
      intro v hv hcid
      rcases upsertFacetValue_key_origin st row.id q v hv with hnew | hold
      · rw [hnew.2]
        exact hqkeep
      · obtain ⟨u0, hu0, hcid0, hkey0⟩ := hold
        rw [hkey0]
        exact h5 u0 hu0 (by rw [← hcid0, hcid])
    have h6' : ∀ p ∈ done ++ [q],
        ∃ v ∈ (upsertFacetValue st row.id q).facetValues,
          v.columnId = row.id ∧ v.valueKey = p.1 ∧ v.displayName = p.2 := by
      intro p hp
      rcases List.mem_append.mp hp with hpd | hpq
      · obtain ⟨v, hv, hvc, hvk, hvd⟩ := h6 p hpd
        refine ⟨v, ?_, hvc, hvk, hvd⟩
        apply upsertFacetValue_keep_of_notmatch st row.id q v hv
        intro hmatch
        exact hqdone p hpd (by rw [← hvk, hmatch.2])
      · have hpe := List.mem_singleton.mp hpq
        rw [hpe]
        obtain ⟨v, hv, hvc, hvk, hvd⟩ :=
          upsertFacetValue_present st row.id q
        exact ⟨v, hv, hvc, hvk, hvd⟩
    have h7' : ∀ v ∈ (upsertFacetValue st row.id q).facetValues,
        v.columnId = row.id → ∀ p ∈ done ++ [q],
          v.valueKey = p.1 → v.displayName = p.2 := by
      intro v hv hcid p hp hkey
      rcases List.mem_append.mp hp with hpd | hpq
      · have hne : v.valueKey ≠ q.1 := by
          rw [hkey]
          exact hqdone p hpd
        have hvold : v ∈ st.facetValues := by
          apply upsertFacetValue_old_of_notmatch st row.id q v hv
          intro hmatch
          exact hne hmatch.2
        exact h7 v hvold hcid p hpd hkey
      · have hpe := List.mem_singleton.mp hpq
        rw [hpe]
        exact upsertFacetValue_display st row.id q v hv hcid
          (by rw [hkey, hpe])
    have h8' : ∀ v : FacetValueRow, v.columnId ≠ row.id →
        (v ∈ (upsertFacetValue st row.id q).facetValues ↔
          v ∈ s2.facetValues) := by
      intro v hne
      constructor
      · intro hv
        have hvold : v ∈ st.facetValues := by
          apply upsertFacetValue_old_of_notmatch st row.id q v hv
          intro hmatch
          exact hne hmatch.1
        exact (h8 v hne).mp hvold
      · intro hv
        have hvold : v ∈ st.facetValues := (h8 v hne).mpr hv
        apply upsertFacetValue_keep_of_notmatch st row.id q v hvold
        intro hmatch
        exact hne hmatch.1
    have := ih (done ++ [q]) hkeys' hkeep' (upsertFacetValue st row.id q)
      (hu.1.trans h1) (hu.2.1.trans h2) (hu.2.2.trans h3)
      h4' h5' h6' h7' h8'
    obtain ⟨g1, g2, g3, g4, g5, g6, g7, g8⟩ := this
    refine ⟨g1, g2, g3, g4, g5, ?_, ?_, g8⟩
    · intro p hp
      apply g6
      have : (done ++ [q]) ++ rest = done ++ q :: rest := by simp
      rw [this]
      exact hp
    · intro v hv hcid p hp hkey
      apply g7 v hv hcid p _ hkey
      have : (done ++ [q]) ++ rest = done ++ q :: rest := by simp
      rw [this]
      exact hp

theorem syncFacetColumn_char (s : Store) (col : FacetSchemaColumn)
    (hwf : facetWf s)
    (hnv : ((normalizedValues col).map (fun q => q.1)).Nodup) :
    facetWf (syncFacetColumn s col) ∧
    SyncedCol (syncFacetColumn s col) col ∧
    (∀ col' : FacetSchemaColumn, col'.key ≠ col.key →
      SyncedCol s col' → SyncedCol (syncFacetColumn s col) col') ∧
    (∀ c ∈ (syncFacetColumn s col).facetColumns,
      c.key = col.key ∨ c ∈ s.facetColumns) := by
  have hwf1 : facetWf (upsertFacetColumn s col) :=
    upsertFacetColumn_facetWf s col hwf
  obtain ⟨c0, hc0mem, hc0key, hc0disp, hc0ty⟩ := upsertFacetColumn_exists s col
  cases hfs : (upsertFacetColumn s col).facetColumns.find?
      (fun c => decide (c.key = col.key)) with
  | none =>
    exfalso
    have := List.find?_eq_none.mp hfs c0 hc0mem
    simp [hc0key] at this
  | some row =>
    have hrowmem : row ∈ (upsertFacetColumn s col).facetColumns :=
      List.mem_of_find?_eq_some hfs
    have hrowkey : row.key = col.key := by
      have := List.find?_some hfs
      simpa using this
    have hc0row : c0 = row :=
      List.inj_on_of_nodup_map hwf1.2.1 hc0mem hrowmem
        (by rw [hc0key, hrowkey])
    have hrowdisp : row.displayName = col.displayName := by
      rw [← hc0row]
      exact hc0disp
    have hrowty : row.type = col.type := by
      rw [← hc0row]
      exact hc0ty
    set dels := ((upsertFacetColumn s col).facetValues.filter (fun w =>
      decide (w.columnId = row.id) &&
      !(((normalizedValues col).map (fun v => v.1)).contains
        w.valueKey))).map (fun w => w.id) with hdels
    set s2 := deleteFacetValuesByIds (upsertFacetColumn s col) dels with hs2
    have hsync : syncFacetColumn s col =
        foldVals row.id (normalizedValues col) s2 := by
      simp only [syncFacetColumn, hfs]
      rw [hs2, hdels]
      rfl
    have hwf2 : facetWf s2 := by
      rw [hs2]
      exact deleteFacetValuesByIds_facetWf _ _ hwf1
    have hrow2 : row ∈ s2.facetColumns := by
      rw [hs2, (deleteFacetValuesByIds_untouched _ _).1]
      exact hrowmem
    have hvals1 : (upsertFacetColumn s col).facetValues = s.facetValues :=
      (upsertFacetColumn_untouched s col).1
    have h5base : ∀ v ∈ s2.facetValues, v.columnId = row.id →
        v.valueKey ∈ (normalizedValues col).map (fun q => q.1) := by
      intro v hv hvc
      rw [hs2] at hv
      obtain ⟨hv1, hvnd⟩ := (deleteFacetValuesByIds_values_mem _ _ v).mp hv
      by_contra hnk
      apply hvnd
      rw [hdels]
      apply List.mem_map_of_mem (fun w : FacetValueRow => w.id)
      apply List.mem_filter.mpr
      refine ⟨hv1, ?_⟩
      rw [Bool.and_eq_true]
      constructor
      · simp [hvc]
      · simpa using hnk
    have hinv := foldVals_invariant s2 row
      ((normalizedValues col).map (fun q => q.1)) [] (normalizedValues col)
      (by simpa using hnv)
      (by
        intro q hq
        simp only [List.nil_append] at hq
        exact List.mem_map_of_mem _ hq)
      s2 rfl rfl rfl hrow2 hwf2 h5base
      (by
        intro q hq
        simp at hq)
      (by
        intro v hv hvc q hq
        simp at hq)
      (fun v _ => Iff.rfl)
    obtain ⟨g1, g2, g3, g4, g5, g6, g7, g8⟩ := hinv
    rw [hsync]
    refine ⟨g4, ⟨row, ?_, hrowkey, hrowdisp, hrowty, ?_, ?_⟩, ?_, ?_⟩
    · rw [g1]
      exact hrow2
    · intro v hv hvc
      have hk := g5 v hv hvc
      obtain ⟨q, hq, hq1⟩ := List.mem_map.mp hk
      refine ⟨q, hq, hq1.symm, ?_⟩
      exact g7 v hv hvc q (by simpa using hq) hq1.symm
    · intro q hq
      exact g6 q (by simpa using hq)
    · intro col' hne hsc
      obtain ⟨row', hr'mem, hr'key, hr'disp, hr'ty, hfwd, hbwd⟩ := hsc
      have hr'mem1 : row' ∈ (upsertFacetColumn s col).facetColumns :=
        (upsertFacetColumn_other s col row'
          (by rw [hr'key]; exact hne)).mpr hr'mem
      have hidne : row'.id ≠ row.id := by
        intro hid
        have heq : row' = row :=
          List.inj_on_of_nodup_map hwf1.1 hr'mem1 hrowmem hid
        apply hne
        rw [← hr'key, heq, hrowkey]
      have hmemtrans : ∀ v : FacetValueRow, v.columnId = row'.id →
          (v ∈ (foldVals row.id (normalizedValues col) s2).facetValues ↔
            v ∈ s.facetValues) := by
        intro v hvc
        have hvne : v.columnId ≠ row.id := by
          rw [hvc]
          exact hidne
        rw [g8 v hvne, hs2, deleteFacetValuesByIds_values_mem, hvals1]
        constructor
        · exact fun h => h.1
        · intro h
          refine ⟨h, ?_⟩
          rw [hdels]
          intro hdel
          obtain ⟨v2, hv2f, hv2id⟩ := List.mem_map.mp hdel
          have hv2mem := (List.mem_filter.mp hv2f).1
          have hv2p := (List.mem_filter.mp hv2f).2
          rw [Bool.and_eq_true] at hv2p
          have hv2c : v2.columnId = row.id := by simpa using hv2p.1
          have hvmem1 : v ∈ (upsertFacetColumn s col).facetValues := by
            rw [hvals1]
            exact h
          have hveq : v2 = v :=
            List.inj_on_of_nodup_map hwf1.2.2.2.1 hv2mem hvmem1 hv2id
          rw [hveq] at hv2c
          exact hvne hv2c
      refine ⟨row', ?_, hr'key, hr'disp, hr'ty, ?_, ?_⟩
      · rw [g1, hs2, (deleteFacetValuesByIds_untouched _ _).1]
        exact hr'mem1
      · intro v hv hvc
        exact hfwd v ((hmemtrans v hvc).mp hv) hvc
      · intro q hq
        obtain ⟨v, hv, hvc, hvk, hvd⟩ := hbwd q hq
        exact ⟨v, (hmemtrans v hvc).mpr hv, hvc, hvk, hvd⟩
    · intro c hcm
      rw [g1, hs2, (deleteFacetValuesByIds_untouched _ _).1] at hcm
      exact upsertFacetColumn_key_origin s col c hcm

theorem foldl_fixed {α β : Type} (f : β → α → β) (t : β) (l : List α)
    (h : ∀ a ∈ l, f t a = t) : l.foldl f t = t := by
  induction l with
  | nil => rfl
  | cons a rest ih =>
    rw [List.foldl_cons, h a (by simp)]
    exact ih (fun b hb => h b (by simp [hb]))

theorem deleteFacetValuesByIds_nil (s : Store) :
    deleteFacetValuesByIds s [] = s := by
  simp [deleteFacetValuesByIds]

theorem deleteFacetColumnsByKeys_decomp (s : Store) (keys : List String) :
    deleteFacetColumnsByKeys s keys =
      { deleteFacetValuesByIds s ((s.facetValues.filter (fun w =>
          ((s.facetColumns.filter (fun c => keys.contains c.key)).map
            (fun c => c.id)).contains w.columnId)).map (fun w => w.id)) with
        facetColumns := s.facetColumns.filter
          (fun c => !(keys.contains c.key)) } := rfl

theorem deleteFacetColumnsByKeys_columns_mem (s : Store) (keys : List String)
    (c : FacetColumnRow) :
    c ∈ (deleteFacetColumnsByKeys s keys).facetColumns ↔
      c ∈ s.facetColumns ∧ ¬(c.key ∈ keys) := by
  rw [deleteFacetColumnsByKeys_decomp]
  show c ∈ s.facetColumns.filter (fun c => !(keys.contains c.key)) ↔ _
  simp [List.mem_filter]

theorem deleteFacetColumnsByKeys_nil (s : Store) :
    deleteFacetColumnsByKeys s [] = s := by
  rw [deleteFacetColumnsByKeys_decomp]
  simp [deleteFacetValuesByIds]

theorem deleteFacetColumnsByKeys_facetWf (s : Store) (keys : List String)
    (hwf : facetWf s) : facetWf (deleteFacetColumnsByKeys s keys) := by
  rw [deleteFacetColumnsByKeys_decomp]
  have hwf1 := deleteFacetValuesByIds_facetWf s
    ((s.facetValues.filter (fun w =>
      ((s.facetColumns.filter (fun c => keys.contains c.key)).map
        (fun c => c.id)).contains w.columnId)).map (fun w => w.id)) hwf
  obtain ⟨hcids, hckeys, hcbound, hvids, hvpairs, hvbound, hvint, haint⟩ :=
    hwf1
  refine ⟨?_, ?_, ?_, hvids, hvpairs, hvbound, ?_, haint⟩
  · exact hwf.1.sublist ((List.filter_sublist _).map _)
  · exact hwf.2.1.sublist ((List.filter_sublist _).map _)
  · intro c hc
    exact hwf.2.2.1 c (List.mem_of_mem_filter hc)
  · intro v hv
    obtain ⟨hvs, hvnd⟩ := (deleteFacetValuesByIds_values_mem _ _ v).mp hv
    obtain ⟨c, hcm, hcid⟩ := hwf.2.2.2.2.2.2.1 v hvs
    refine ⟨c, ?_, hcid⟩
    apply List.mem_filter.mpr
    refine ⟨hcm, ?_⟩
    by_contra hck
    have hck' : keys.contains c.key = true := by
      simpa using hck
    apply hvnd
    apply List.mem_map_of_mem (fun w : FacetValueRow => w.id)
    apply List.mem_filter.mpr
    refine ⟨hvs, ?_⟩
    have hin : c.id ∈ (s.facetColumns.filter
        (fun c => keys.contains c.key)).map (fun c => c.id) :=
      List.mem_map_of_mem _ (List.mem_filter.mpr ⟨hcm, hck'⟩)
    rw [hcid]
    simpa using hin

theorem syncSchemaFold_invariant (allKeys : List String)
    (done todo : List FacetSchemaColumn)
    (hnd : ((done ++ todo).map (fun c => c.key)).Nodup)
    (hnv : ∀ col ∈ done ++ todo,
      ((normalizedValues col).map (fun q => q.1)).Nodup)
    (hsub : ∀ col ∈ done ++ todo, col.key ∈ allKeys)
    (t : Store)
    (hwf : facetWf t)
    (hdone : ∀ col ∈ done, SyncedCol t col)
    (hkeys : ∀ c ∈ t.facetColumns, c.key ∈ allKeys) :
    facetWf (todo.foldl syncFacetColumn t) ∧
    (∀ col ∈ done ++ todo, SyncedCol (todo.foldl syncFacetColumn t) col) ∧
    (∀ c ∈ (todo.foldl syncFacetColumn t).facetColumns,
      c.key ∈ allKeys) := by
  induction todo generalizing done t with
  | nil =>
    refine ⟨hwf, ?_, hkeys⟩
    intro col hcol
    simp only [List.append_nil] at hcol
    exact hdone col hcol
  | cons col rest ih =>
    obtain ⟨w1, s1c, s1p, s1k⟩ :=
      syncFacetColumn_char t col hwf (hnv col (by simp))
    have hdisj : ∀ col' ∈ done, col'.key ≠ col.key := by
      intro col' hc' heq
      have hnd' : ((done ++ col :: rest).map (fun c => c.key)).Nodup := hnd
      rw [List.map_append] at hnd'
      have hd := (List.nodup_append.mp hnd').2.2
      exact hd (List.mem_map_of_mem _ hc') (by simp [heq])
    have hdone' : ∀ col' ∈ done ++ [col],
        SyncedCol (syncFacetColumn t col) col' := by
      intro col' hc'
      rcases List.mem_append.mp hc' with h1 | h2
      · exact s1p col' (hdisj col' h1) (hdone col' h1)
      · have := List.mem_singleton.mp h2
        rw [this]
        exact s1c
    have hkeys' : ∀ c ∈ (syncFacetColumn t col).facetColumns,
        c.key ∈ allKeys := by
      intro c hc
      rcases s1k c hc with h1 | h2
      · rw [h1]
        exact hsub col (by simp)
      · exact hkeys c h2
    have hnd2 : (((done ++ [col]) ++ rest).map (fun c => c.key)).Nodup := by
      have : (done ++ [col]) ++ rest = done ++ col :: rest := by simp
      rw [this]
      exact hnd
    have hnv2 : ∀ c ∈ (done ++ [col]) ++ rest,
        ((normalizedValues c).map (fun q => q.1)).Nodup := by
      intro c hc
      apply hnv
      have : (done ++ [col]) ++ rest = done ++ col :: rest := by simp
      rw [← this]
      exact hc
    have hsub2 : ∀ c ∈ (done ++ [col]) ++ rest, c.key ∈ allKeys := by
      intro c hc
      apply hsub
      have : (done ++ [col]) ++ rest = done ++ col :: rest := by simp
      rw [← this]
      exact hc
    have hstep : (col :: rest).foldl syncFacetColumn t =
        rest.foldl syncFacetColumn (syncFacetColumn t col) := rfl
    rw [hstep]
    obtain ⟨g1, g2, g3⟩ := ih (done ++ [col]) hnd2 hnv2 hsub2
      (syncFacetColumn t col) w1 hdone' hkeys'
    refine ⟨g1, ?_, g3⟩
    intro c hc
    apply g2
    have : (done ++ [col]) ++ rest = done ++ col :: rest := by simp
    rw [this]
    exact hc

theorem syncFacetSchema_shape (s : Store) (schema : FacetSchemaFile)
    (hwf : facetWf s)
    (hnd : (schema.columns.map (fun c => c.key)).Nodup)
    (hnv : ∀ col ∈ schema.columns,
      ((normalizedValues col).map (fun q => q.1)).Nodup) :
    facetWf (syncFacetSchema s schema) ∧
    (∀ col ∈ schema.columns, SyncedCol (syncFacetSchema s schema) col) ∧
    (∀ c ∈ (syncFacetSchema s schema).facetColumns,
      c.key ∈ schema.columns.map (fun c => c.key)) := by
  have hdeq : syncFacetSchema s schema =
      schema.columns.foldl syncFacetColumn
        (deleteFacetColumnsByKeys s ((s.facetColumns.filter (fun c =>
          !((schema.columns.map (fun c => c.key)).contains c.key))).map
          (fun c => c.key))) := rfl
  rw [hdeq]
  have hwfd := deleteFacetColumnsByKeys_facetWf s
    ((s.facetColumns.filter (fun c =>
      !((schema.columns.map (fun c => c.key)).contains c.key))).map
      (fun c => c.key)) hwf
  have hkeysd : ∀ c ∈ (deleteFacetColumnsByKeys s
      ((s.facetColumns.filter (fun c =>
        !((schema.columns.map (fun c => c.key)).contains c.key))).map
        (fun c => c.key))).facetColumns,
      c.key ∈ schema.columns.map (fun c => c.key) := by
    intro c hc
    obtain ⟨hcm, hcnk⟩ := (deleteFacetColumnsByKeys_columns_mem _ _ c).mp hc
    by_contra hnk
    apply hcnk
    apply List.mem_map_of_mem (fun c : FacetColumnRow => c.key)
    apply List.mem_filter.mpr
    refine ⟨hcm, ?_⟩
    simpa using hnk
  obtain ⟨g1, g2, g3⟩ := syncSchemaFold_invariant
    (schema.columns.map (fun c => c.key)) [] schema.columns
    (by simpa using hnd)
    (by
      intro col hcol
      exact hnv col (by simpa using hcol))
    (by
      intro col hcol
      exact List.mem_map_of_mem _ (by simpa using hcol))
    _ hwfd
    (by
      intro col hcol
      simp at hcol)
    hkeysd
  refine ⟨g1, ?_, g3⟩
  intro col hcol
  exact g2 col (by simpa using hcol)

theorem syncFacetColumn_fixed (t : Store) (col : FacetSchemaColumn)
    (hwf : facetWf t)
    (hnv : ((normalizedValues col).map (fun q => q.1)).Nodup)
    (hsc : SyncedCol t col) :
    syncFacetColumn t col = t := by
  obtain ⟨row, hrowmem, hrowkey, hrowdisp, hrowty, hfwd, hbwd⟩ := hsc
  have hany : (t.facetColumns.any (fun c => decide (c.key = col.key))) =
      true :=
    List.any_eq_true.mpr ⟨row, hrowmem, by simpa using hrowkey⟩
  have hups : upsertFacetColumn t col = t := by
    unfold upsertFacetColumn
    rw [if_pos hany]
    have hmap : t.facetColumns.map (fun c =>
        if decide (c.key = col.key) then
          { c with displayName := col.displayName, type := col.type }
        else c) = t.facetColumns := by
      apply list_map_id_of_mem
      intro c hcm
      by_cases h0 : c.key = col.key
      · rw [if_pos (by simpa using h0)]
        have hcrow : c = row :=
          List.inj_on_of_nodup_map hwf.2.1 hcm hrowmem
            (by rw [h0, hrowkey])
        rw [hcrow, ← hrowdisp, ← hrowty]
      · rw [if_neg (by simpa using h0)]
    rw [hmap]
  cases hfs : t.facetColumns.find? (fun c => decide (c.key = col.key)) with
  | none =>
    exfalso
    have := List.find?_eq_none.mp hfs row hrowmem
    simp [hrowkey] at this
  | some row' =>
    have hr'mem : row' ∈ t.facetColumns := List.mem_of_find?_eq_some hfs
    have hr'key : row'.key = col.key := by
      have := List.find?_some hfs
      simpa using this
    have hr'row : row' = row :=
      List.inj_on_of_nodup_map hwf.2.1 hr'mem hrowmem
        (by rw [hr'key, hrowkey])
    subst hr'row
    have hfs1 : (upsertFacetColumn t col).facetColumns.find?
        (fun c => decide (c.key = col.key)) = some row' := by
      rw [hups]
      exact hfs
    have hsync : syncFacetColumn t col =
        foldVals row'.id (normalizedValues col)
          (deleteFacetValuesByIds (upsertFacetColumn t col)
            (((upsertFacetColumn t col).facetValues.filter (fun w =>
              decide (w.columnId = row'.id) &&
              !(((normalizedValues col).map (fun v => v.1)).contains
                w.valueKey))).map (fun w => w.id))) := by
      simp only [syncFacetColumn, hfs1]
      rfl
    rw [hsync, hups]
    have htd : (t.facetValues.filter (fun w =>
        decide (w.columnId = row'.id) &&
        !(((normalizedValues col).map (fun v => v.1)).contains
          w.valueKey))) = [] := by
      rw [List.filter_eq_nil_iff]
      intro v hv
      by_cases hvc : v.columnId = row'.id
      · obtain ⟨nv', hnv'mem, hk, hd⟩ := hfwd v hv hvc
        have hcont : (((normalizedValues col).map (fun q => q.1)).contains
            v.valueKey) = true := by
          have : v.valueKey ∈ (normalizedValues col).map (fun q => q.1) := by
            rw [hk]
            exact List.mem_map_of_mem _ hnv'mem
          simpa using this
        intro hcontra
        rw [Bool.and_eq_true] at hcontra
        rw [hcont] at hcontra
        simp at hcontra
      · simp [hvc]
    rw [htd]
    show foldVals row'.id (normalizedValues col)
      (deleteFacetValuesByIds t []) = t
    rw [deleteFacetValuesByIds_nil]
    have hstep : ∀ q ∈ normalizedValues col,
        upsertFacetValue t row'.id q = t := by
      intro q hq
      have hanyv : (t.facetValues.any (fun w =>
          decide (w.columnId = row'.id) && decide (w.valueKey = q.1))) =
          true := by
        obtain ⟨v, hv, hvc, hvk, hvd⟩ := hbwd q hq
        exact List.any_eq_true.mpr ⟨v, hv, by simp [hvc, hvk]⟩
      unfold upsertFacetValue
      rw [if_pos hanyv]
      have hmap : t.facetValues.map (fun w =>
          if decide (w.columnId = row'.id) && decide (w.valueKey = q.1) then
            { w with displayName := q.2 }
          else w) = t.facetValues := by
        apply list_map_id_of_mem
        intro w hw
        by_cases h0 : w.columnId = row'.id ∧ w.valueKey = q.1
        · rw [if_pos (by simp [h0.1, h0.2])]
          obtain ⟨nv', hnv'mem, hk, hd⟩ := hfwd w hw h0.1
          have hq' : nv' = q :=
            List.inj_on_of_nodup_map hnv hnv'mem hq
              (by rw [← hk, h0.2])
          have hwd : w.displayName = q.2 := by
            rw [hd, hq']
          rw [← hwd]
        · rw [if_neg (by simpa using h0)]
      rw [hmap]
    exact foldl_fixed _ t (normalizedValues col) hstep

theorem syncFacetSchema_fixed (t : Store) (schema : FacetSchemaFile)
    (hwf : facetWf t)
    (hnv : ∀ col ∈ schema.columns,
      ((normalizedValues col).map (fun q => q.1)).Nodup)
    (hsync : ∀ col ∈ schema.columns, SyncedCol t col)
    (hkeys : ∀ c ∈ t.facetColumns,
      c.key ∈ schema.columns.map (fun c => c.key)) :
    syncFacetSchema t schema = t := by
  have hdk : (t.facetColumns.filter (fun c =>
      !((schema.columns.map (fun c => c.key)).contains c.key))) = [] := by
    rw [List.filter_eq_nil_iff]
    intro c hc
    simp only [Bool.not_eq_true']
    simpa using hkeys c hc
  have hdeq : syncFacetSchema t schema =
      schema.columns.foldl syncFacetColumn
        (deleteFacetColumnsByKeys t ((t.facetColumns.filter (fun c =>
          !((schema.columns.map (fun c => c.key)).contains c.key))).map
          (fun c => c.key))) := rfl
  rw [hdeq, hdk]
  show schema.columns.foldl syncFacetColumn
    (deleteFacetColumnsByKeys t []) = t
  rw [deleteFacetColumnsByKeys_nil]
  exact foldl_fixed syncFacetColumn t schema.columns
    (fun col hc => syncFacetColumn_fixed t col hwf (hnv col hc)
      (hsync col hc))

/-- Claim C6: for a well-formed store and a schema whose column keys and
per-column normalized value keys are duplicate-free, running
`syncFacetSchema` twice with the same schema equals running it once; after
a run exactly the schema's column keys exist in `facet_columns`, every
surviving facet value references an existing column, and every surviving
family association references an existing value (so deleting a column
cascades to its values and their family associations). -/
theorem syncFacetSchema_idempotent (s : Store) (schema : FacetSchemaFile)
    (hwf : facetWf s)
    (hnd : (schema.columns.map (fun c => c.key)).Nodup)
    (hnv : ∀ col ∈ schema.columns,
      ((normalizedValues col).map (fun q => q.1)).Nodup) :
    syncFacetSchema (syncFacetSchema s schema) schema =
      syncFacetSchema s schema ∧
    (∀ k : String,
      (∃ c ∈ (syncFacetSchema s schema).facetColumns, c.key = k) ↔
        k ∈ schema.columns.map (fun c => c.key)) ∧
    (∀ v ∈ (syncFacetSchema s schema).facetValues,
      ∃ c ∈ (syncFacetSchema s schema).facetColumns, v.columnId = c.id) ∧
    (∀ a ∈ (syncFacetSchema s schema).familyFacetValues,
      ∃ v ∈ (syncFacetSchema s schema).facetValues, a.valueId = v.id) := by
  obtain ⟨hwf', hsync', hkeys'⟩ := syncFacetSchema_shape s schema hwf hnd hnv
  refine ⟨syncFacetSchema_fixed _ schema hwf' hnv hsync' hkeys', ?_,
    hwf'.2.2.2.2.2.2.1, hwf'.2.2.2.2.2.2.2⟩
  intro k
  constructor
  · rintro ⟨c, hcm, hck⟩
    rw [← hck]
    exact hkeys' c hcm
  · intro hk
    obtain ⟨col, hcol, hcolk⟩ := List.mem_map.mp hk
    obtain ⟨row, hrmem, hrkey, _, _, _, _⟩ := hsync' col hcol
    exact ⟨row, hrmem, by rw [hrkey, hcolk]⟩

theorem syncFacetSchema_idempotent_witness :
    syncFacetSchema (syncFacetSchema singleColStore c6Schema) c6Schema =
      syncFacetSchema singleColStore c6Schema ∧
    (∀ k : String,
      (∃ c ∈ (syncFacetSchema singleColStore c6Schema).facetColumns,
        c.key = k) ↔
        k ∈ c6Schema.columns.map (fun c => c.key)) ∧
    (∀ v ∈ (syncFacetSchema singleColStore c6Schema).facetValues,
      ∃ c ∈ (syncFacetSchema singleColStore c6Schema).facetColumns,
        v.columnId = c.id) ∧
    (∀ a ∈ (syncFacetSchema singleColStore c6Schema).familyFacetValues,
      ∃ v ∈ (syncFacetSchema singleColStore c6Schema).facetValues,
        a.valueId = v.id) :=
  syncFacetSchema_idempotent singleColStore c6Schema
    (by unfold facetWf; decide) (by decide) (by decide)

/-- Claim C8 (amended): after a run of `syncFacetSchema` on a well-formed
store, a boolean schema column whose listed `values` array is EMPTY ends
with exactly one value row — the synthetic value keyed 'true' carrying
the column's display name. (The counterexample shows the normalization
does not apply to a boolean column that lists values.) -/
theorem syncFacetSchema_boolean_empty_synthetic (s : Store)
    (schema : FacetSchemaFile)
    (hwf : facetWf s)
    (hnd : (schema.columns.map (fun c => c.key)).Nodup)
    (hnv : ∀ col ∈ schema.columns,
      ((normalizedValues col).map (fun q => q.1)).Nodup)
    (col : FacetSchemaColumn) (hcol : col ∈ schema.columns)
    (hb : col.type = FacetColumnType.boolean) (he : col.values = []) :
    ∃ row ∈ (syncFacetSchema s schema).facetColumns, row.key = col.key ∧
      ((syncFacetSchema s schema).facetValues.filter
        (fun v => decide (v.columnId = row.id))).length = 1 ∧
      (∀ v ∈ (syncFacetSchema s schema).facetValues, v.columnId = row.id →
        v.valueKey = "true" ∧ v.displayName = col.displayName) := by
  obtain ⟨hwf', hsync', hkeys'⟩ := syncFacetSchema_shape s schema hwf hnd hnv
  obtain ⟨row, hrmem, hrkey, hrdisp, hrty, hfwd, hbwd⟩ := hsync' col hcol
  have hnvcol : normalizedValues col = [("true", col.displayName)] := by
    unfold normalizedValues
    rw [if_pos (by simp [hb, he])]
  have hchar : ∀ v ∈ (syncFacetSchema s schema).facetValues,
      v.columnId = row.id →
      v.valueKey = "true" ∧ v.displayName = col.displayName := by
    intro v hv hvc
    obtain ⟨nv', hnv'mem, hk, hd⟩ := hfwd v hv hvc
    rw [hnvcol] at hnv'mem
    have hnv'e : nv' = ("true", col.displayName) :=
      List.mem_singleton.mp hnv'mem
    rw [hnv'e] at hk hd
    exact ⟨hk, hd⟩
  refine ⟨row, hrmem, hrkey, ?_, hchar⟩
  have hle : ((syncFacetSchema s schema).facetValues.filter
      (fun v => decide (v.columnId = row.id))).length ≤ 1 := by
    have hnd2 : (((syncFacetSchema s schema).facetValues.filter
        (fun v => decide (v.columnId = row.id))).map
        (fun v => (v.columnId, v.valueKey))).Nodup :=
      hwf'.2.2.2.2.1.sublist ((List.filter_sublist _).map _)
    have hall : ∀ x ∈ ((syncFacetSchema s schema).facetValues.filter
        (fun v => decide (v.columnId = row.id))).map
        (fun v => (v.columnId, v.valueKey)),
        x = (row.id, "true") := by
      intro x hx
      obtain ⟨v, hvf, hvx⟩ := List.mem_map.mp hx
      have hvm := List.mem_of_mem_filter hvf
      have hvc : v.columnId = row.id := by
        have := List.mem_filter.mp hvf
        simpa using this.2
      have := hchar v hvm hvc
      rw [← hvx, hvc, this.1]
    have := nodup_all_eq_length_le_one hnd2 hall
    rw [List.length_map] at this
    exact this
  have hge : 1 ≤ ((syncFacetSchema s schema).facetValues.filter
      (fun v => decide (v.columnId = row.id))).length := by
    obtain ⟨v, hv, hvc, hvk, hvd⟩ := hbwd ("true", col.displayName)
      (by rw [hnvcol]; simp)
    have hvf : v ∈ (syncFacetSchema s schema).facetValues.filter
        (fun v => decide (v.columnId = row.id)) :=
      List.mem_filter.mpr ⟨hv, by simpa using hvc⟩
    have := List.length_pos.mpr (List.ne_nil_of_mem hvf)
    omega
  omega

theorem syncFacetSchema_boolean_empty_synthetic_witness :
    ∃ row ∈ (syncFacetSchema emptyStore c8Schema).facetColumns,
      row.key = "fav" ∧
      ((syncFacetSchema emptyStore c8Schema).facetValues.filter
        (fun v => decide (v.columnId = row.id))).length = 1 ∧
      (∀ v ∈ (syncFacetSchema emptyStore c8Schema).facetValues,
        v.columnId = row.id →
        v.valueKey = "true" ∧ v.displayName = "Fav") :=
  syncFacetSchema_boolean_empty_synthetic emptyStore c8Schema
    (by unfold facetWf; decide) (by decide) (by decide)
    { key := "fav", displayName := "Fav", type := .boolean, values := [] }
    (by decide) rfl rfl

end Fontman
